import Mathlib

/-!
Shallow embedding of keyd's configuration compiler (`src/config.c`) and proofs
about its behaviour.  C strings are modelled as lists of Unicode code points
(`Str`); byte lengths are recovered with `utf8_len` where the source uses
`strlen` in a length check.  Functions external to the repository
(`parse_key_sequence`, the keycode table, `str_escape`, `parse_modset`, the
xcompose table) and the capacity constants from the missing `keyd.h` are
collected in an `Env` record; a concrete `model_env`, modelled from the
specification, instantiates them for witnesses.
-/

namespace KeydConfig

/-- A C string, modelled as its decoded list of Unicode code points. -/
abbrev Str := List Char

/-- MAX_FILE_SZ from `config.c`. -/
def MAX_FILE_SZ : Nat := 65536

/-- MAX_LINE_LEN from `config.c`. -/
def MAX_LINE_LEN : Nat := 256

/-- Modelled from the spec: `MAX_DESCRIPTOR_ARGS` lives in the missing
`keyd.h`; the action table's maximal arity (the `timeout` action) is 3. -/
def MAX_DESCRIPTOR_ARGS : Nat := 3

/-- Byte length of a string (C `strlen` on the UTF-8 encoding). -/
def utf8_len (s : Str) : Nat := (s.map Char.utf8Size).sum

/-- The `while (*c == ' ') c++;` idiom of `parse_fn`. -/
def skip_spaces (s : Str) : Str := s.dropWhile (fun c => c = ' ')

/-- Accumulator-based worker for `strtok_all`. -/
def strtok_aux (d : Char) (cur : Str) : Str → List Str
  | [] => if cur = [] then [] else [cur.reverse]
  | c :: cs =>
    if c = d then
      if cur = [] then strtok_aux d [] cs else cur.reverse :: strtok_aux d [] cs
    else strtok_aux d (c :: cur) cs

/-- All tokens produced by repeated C `strtok(s, d)` calls: the maximal
nonempty runs of non-delimiter characters. -/
def strtok_all (d : Char) (s : Str) : List Str := strtok_aux d [] s

/-- Digit-accumulating loop of C `atoi`. -/
def atoi_digits : Str → Nat → Nat
  | [], acc => acc
  | c :: cs, acc => if c.isDigit then atoi_digits cs (acc * 10 + (c.toNat - 48)) else acc

/-- C `atoi`: optional leading whitespace and sign, then leading digits;
returns 0 on non-numeric text (overflow behaviour is not modelled). -/
def atoi (s : Str) : Int :=
  let s1 := s.dropWhile (fun c => c = ' ' ∨ c = '\t' ∨ c = '\n' ∨ c = '\r')
  match s1 with
  | '-' :: rest => -(atoi_digits rest 0 : Int)
  | '+' :: rest => (atoi_digits rest 0 : Int)
  | _ => (atoi_digits s1 0 : Int)

/-- One row of the external keycode table (`keys.h`): primary name, optional
alternate name, optional shifted display name. -/
structure KeycodeEnt where
  name : Option Str
  alt_name : Option Str
  shifted_name : Option Str
deriving DecidableEq, Repr

/-- External collaborators of `config.c` together with the capacity constants
from the missing `keyd.h`. `parse_key_sequence` returns `some (code, mods)`
on success (the C function returns 0 and fills two `uint8_t` outputs). -/
structure Env where
  parse_key_sequence : Str → Option (Nat × Nat)
  str_escape : Str → Str
  keycode_table : Nat → KeycodeEnt
  lookup_xcompose_index : Char → Int
  parse_modset : Str → Option Nat
  mod_shift : Nat
  macro_cap : Nat
  cmd_cap : Nat
  alias_cap : Nat
  max_layers : Nat
  max_macros : Nat
  max_commands : Nat
  max_descriptors : Nat
  constituents_cap : Nat

/-- Operation codes of a descriptor (`OP_*` in `keyd.h`); `opNoop` is the
zero value an empty expression leaves behind. -/
inductive Op
  | opNoop
  | opKeyseq
  | opSwap
  | opSwap2
  | opClear
  | opOneshot
  | opToggle
  | opToggle2
  | opLayer
  | opOverload
  | opTimeout
  | opMacro2
  | opLayout
  | opCommand
  | opMacro
deriving DecidableEq, Repr

/-- A compiled descriptor: operation code plus up to three argument slots
(the C union members `code`/`mods`/`idx`/`timeout` are all numeric; slots the
source never assigns are modelled as 0). -/
structure Descriptor where
  op : Op := .opNoop
  arg0 : Int := 0
  arg1 : Int := 0
  arg2 : Int := 0
deriving DecidableEq, Repr

instance : Inhabited Descriptor := ⟨{}⟩

/-- Write argument slot `j` of a descriptor. -/
def Descriptor.setArg (d : Descriptor) (j : Nat) (v : Int) : Descriptor :=
  match j with
  | 0 => { d with arg0 := v }
  | 1 => { d with arg1 := v }
  | _ => { d with arg2 := v }

/-- Argument types of the action table. -/
inductive ArgType
  | aEmpty
  | aMacro
  | aLayer
  | aLayout
  | aTimeout
  | aDescriptor
deriving DecidableEq, Repr

/-- Entry kinds of a compiled macro (`MACRO_*`). -/
inductive MEntryType
  | eKeyseq
  | eHold
  | eRelease
  | eTimeout
  | eUnicode
deriving DecidableEq, Repr

/-- One macro entry: kind plus numeric payload. -/
structure MEntry where
  type : MEntryType
  data : Int
deriving DecidableEq, Repr

/-- Layer kinds (`LT_*`). -/
inductive LayerType
  | ltNormal
  | ltLayout
  | ltComposite
deriving DecidableEq, Repr

/-- One layer: name, kind, modifier bitmask, composite constituent indices and
a 256-slot keymap (a total function; the C array is zero-initialised, matching
the default descriptor). -/
structure Layer where
  name : Str := []
  type : LayerType := .ltNormal
  mods : Nat := 0
  constituents : List Int := []
  keymap : Nat → Descriptor := fun _ => {}

instance : Inhabited Layer := ⟨{}⟩

/-- The in-progress configuration: the fields of `struct config` that the
compile-time procedures under proof read or write. -/
structure Config where
  layers : List Layer := []
  aliases : Nat → Str := fun _ => []
  ids : List Nat := []
  excluded_ids : List Nat := []
  wildcard : Bool := false
  commands : List Str := []
  macros : List (List MEntry) := []
  descriptors : List Descriptor := []

/-- `config_get_layer_index`: index of the first layer with the given name,
`-1` if absent. -/
def config_get_layer_index (config : Config) (name : Str) : Int :=
  match config.layers.findIdx? (fun l => l.name = name) with
  | some i => (i : Int)
  | none => -1

/-- `config_check_match`: 2 for an exact allow-list match, else 0 when the id
is excluded, else 1 under the wildcard flag, else 0. -/
def config_check_match (config : Config) (id : Nat) : Nat :=
  if id ∈ config.ids then 2
  else if id ∈ config.excluded_ids then 0
  else if config.wildcard then 1 else 0

/-- `lookup_keycode`: the first index 0–255 whose table entry has the given
name as primary or alternate name; 0 (an unusable code) when none matches. -/
def lookup_keycode (env : Env) (name : Str) : Nat :=
  match (List.range 256).findSome? (fun i =>
    let e := env.keycode_table i
    if e.name.isSome ∧ (e.name = some name ∨ e.alt_name = some name) then some i else none) with
  | some i => i
  | none => 0

/-- Argument scanner of `parse_fn`: consumes characters tracking parenthesis
depth, `\` escaping the following character (both are copied through); stops
at a top-level `)` or `,` returning the span, the delimiter and the rest.
`none` models running off the end of the string (unbalanced parentheses). -/
def scan_arg : Str → Nat → Str → Option (Str × Char × Str)
  | [], _, _ => none
  | ['\\'], _, _ => none
  | '\\' :: d :: rest2, plvl, acc => scan_arg rest2 plvl (acc ++ ['\\', d])
  | c :: rest, plvl, acc =>
    if c = '(' then scan_arg rest (plvl + 1) (acc ++ [c])
    else if c = ')' then
      if plvl = 0 then some (acc, ')', rest) else scan_arg rest (plvl - 1) (acc ++ [c])
    else if c = ',' then
      if plvl = 0 then some (acc, ',', rest) else scan_arg rest plvl (acc ++ [c])
    else scan_arg rest plvl (acc ++ [c])

/-- Argument-list loop of `parse_fn`: an empty span is dropped (the
`arg != c` test); a span pushed when the list already holds
`MAX_DESCRIPTOR_ARGS` arguments aborts (the C `assert`, modelled as failure);
leading spaces after a comma are skipped.  The fuel is always sufficient since
each iteration consumes at least the delimiter character. -/
def parse_args : Nat → Str → List Str → Option (List Str)
  | 0, _, _ => none
  | fuel + 1, cs, acc =>
    match scan_arg cs 0 [] with
    | none => none
    | some (arg, term, rest) =>
      if arg ≠ [] ∧ MAX_DESCRIPTOR_ARGS ≤ acc.length then none
      else
        let acc2 := if arg = [] then acc else acc ++ [arg]
        if term = ')' then some acc2
        else parse_args fuel (skip_spaces rest) acc2

/-- `parse_fn`: splits `name(arg1, ...)` into the name (the text before the
first `(`) and its non-empty argument spans. -/
def parse_fn (s : Str) : Option (Str × List Str) :=
  let name := s.takeWhile (fun c => c ≠ '(')
  match s.dropWhile (fun c => c ≠ '(') with
  | [] => none
  | _ :: cs =>
    let cs2 := skip_spaces cs
    match parse_args (cs2.length + 1) cs2 [] with
    | none => none
    | some args => some (name, args)

/-- Result of `parse_command`: 0 (`cmdOk`), 1 (`cmdFatal`, length cap) or -1
(`cmdNot`, the text is not `command(...)`). -/
inductive CmdResult
  | cmdOk (cmd : Str)
  | cmdFatal
  | cmdNot
deriving DecidableEq, Repr

/-- `parse_command`: requires the literal prefix `command(` and suffix `)`;
the inner text is escape-decoded and stored.  The length cap compares the
whole expression's byte length against `sizeof(command->cmd)`. -/
def parse_command (env : Env) (s : Str) : CmdResult :=
  if s.length = 0 ∨ ¬("command(".toList.isPrefixOf s) ∨ s.getLast? ≠ some ')' then .cmdNot
  else if env.cmd_cap < utf8_len s then .cmdFatal
  else .cmdOk (env.str_escape ((s.drop 8).dropLast))

/-- Errors inside macro compilation: -1 (`invalidE`, not a macro / bad chord
key) or 1 (`fatalE`, the ADD_ENTRY capacity check). -/
inductive MErr
  | invalidE
  | fatalE
deriving DecidableEq, Repr

/-- The `ADD_ENTRY` macro of `parse_macro_expression`: fatal when the entry
list has already reached the capacity, else appends. -/
def macro_add (env : Env) (es : List MEntry) (t : MEntryType) (d : Int) : Except MErr (List MEntry) :=
  if env.macro_cap ≤ es.length then .error .fatalE else .ok (es ++ [⟨t, d⟩])

/-- The `len > 1 && key[len-2] == 'm' && key[len-1] == 's'` test. -/
def is_ms_token (tok : Str) : Bool :=
  decide (1 < tok.length) && (tok.getD (tok.length - 2) ' ' == 'm')
    && (tok.getD (tok.length - 1) ' ' == 's')

/-- Literal-text scan of the keycode table: the first index whose primary
name (checked first) or shifted display name is exactly the character. -/
def find_char_key (env : Env) (c : Char) : Option (Nat × Bool) :=
  (List.range 256).findSome? (fun i =>
    let e := env.keycode_table i
    if e.name = some [c] then some (i, false)
    else if e.shifted_name = some [c] then some (i, true) else none)

/-- Literal-text token handling: each ASCII character matching the keycode
table emits a key-sequence entry (with the shift bit when matched via the
shifted name); other code points go through the xcompose lookup; unresolved
code points are skipped. -/
def compile_literal (env : Env) : List MEntry → Str → Except MErr (List MEntry)
  | es, [] => .ok es
  | es, c :: rest =>
    let step : Except MErr (List MEntry) :=
      if c.toNat < 128 then
        match find_char_key env c with
        | some (i, shifted) =>
          macro_add env es .eKeyseq (if shifted then ((env.mod_shift * 256 + i : Nat) : Int) else (i : Int))
        | none => .ok es
      else if 0 < env.lookup_xcompose_index c then
        macro_add env es .eUnicode (env.lookup_xcompose_index c)
      else .ok es
    match step with
    | .ok es2 => compile_literal env es2 rest
    | .error e => .error e

/-- Chord handling: each `+`-separated part is a timeout (`<n>ms`) or a held
key; an unknown part is the invalid (-1) error. -/
def compile_chord_parts (env : Env) : List MEntry → List Str → Except MErr (List MEntry)
  | es, [] => .ok es
  | es, key :: keys =>
    let step : Except MErr (List MEntry) :=
      if is_ms_token key then macro_add env es .eTimeout (atoi key)
      else
        match env.parse_key_sequence key with
        | some (code, _mods) => macro_add env es .eHold ((code % 256 : Nat) : Int)
        | none => .error .invalidE
    match step with
    | .ok es2 => compile_chord_parts env es2 keys
    | .error e => .error e

/-- Classification of one whitespace-separated macro token, in source order:
key-sequence, chord (`+`), timeout (`<n>ms`), literal text. -/
def compile_token (env : Env) (es : List MEntry) (tok : Str) : Except MErr (List MEntry) :=
  match env.parse_key_sequence tok with
  | some (code, mods) => macro_add env es .eKeyseq (((mods % 256) * 256 + code % 256 : Nat) : Int)
  | none =>
    if '+' ∈ tok then
      match compile_chord_parts env es (strtok_all '+' tok) with
      | .ok es2 => macro_add env es2 .eRelease 0
      | .error e => .error e
    else if is_ms_token tok then macro_add env es .eTimeout (atoi tok)
    else compile_literal env es tok

/-- Token loop of `parse_macro_expression`. -/
def compile_tokens (env : Env) : List MEntry → List Str → Except MErr (List MEntry)
  | es, [] => .ok es
  | es, t :: ts =>
    match compile_token env es t with
    | .ok es2 => compile_tokens env es2 ts
    | .error e => .error e

/-- Result of `parse_macro_expression`: 0 with the entries (`mOk`), -1
(`mInvalid`, not a macro) or 1 (`mFatal`, capacity exceeded). -/
inductive MacroResult
  | mOk (entries : List MEntry)
  | mInvalid
  | mFatal
deriving DecidableEq, Repr

/-- Escape-decode, whitespace-tokenise and compile a macro body. -/
def macro_compile_body (env : Env) (ptr : Str) : MacroResult :=
  match compile_tokens env [] (strtok_all ' ' (env.str_escape ptr)) with
  | .ok es => .mOk es
  | .error .invalidE => .mInvalid
  | .error .fatalE => .mFatal

/-- The `macro(...)` wrapper test (prefix and final character). -/
def macro_wrapped (s : Str) : Bool :=
  "macro(".toList.isPrefixOf s && s.getLast? == some ')'

/-- `parse_macro_expression`: over-long text is -1; a `macro(...)` wrapper is
stripped; otherwise bare text must parse as a key sequence or be exactly one
code point, else it is not a macro (-1); then the body is compiled. -/
def parse_macro_expression (env : Env) (s : Str) : MacroResult :=
  if 1024 ≤ utf8_len s then .mInvalid
  else if macro_wrapped s then macro_compile_body env ((s.dropLast).drop 6)
  else if env.parse_key_sequence s = none ∧ s.length ≠ 1 then .mInvalid
  else macro_compile_body env s

/-- The rows of the static `actions[]` table: name, operation, argument
types (the C array is padded with `ARG_EMPTY`; the list length is the arity
the `j` loop computes). -/
def actions : List (Str × Op × List ArgType) :=
  [("swap".toList, .opSwap, [.aLayer]),
   ("swap2".toList, .opSwap2, [.aLayer, .aMacro]),
   ("clear".toList, .opClear, []),
   ("oneshot".toList, .opOneshot, [.aLayer]),
   ("toggle".toList, .opToggle, [.aLayer]),
   ("toggle2".toList, .opToggle2, [.aLayer, .aMacro]),
   ("layer".toList, .opLayer, [.aLayer]),
   ("overload".toList, .opOverload, [.aLayer, .aDescriptor]),
   ("timeout".toList, .opTimeout, [.aDescriptor, .aTimeout, .aDescriptor]),
   ("macro2".toList, .opMacro2, [.aTimeout, .aTimeout, .aMacro]),
   ("setlayout".toList, .opLayout, [.aLayout])]

/-- The `while (j--)` argument loop of `parse_descriptor`: resolves argument
`j-1` down to argument 0, threading the config (pools grow as a side effect).
`pd` is the recursive descriptor parser for `ARG_DESCRIPTOR` arguments. -/
def process_args (env : Env) (pd : Str → Config → Option (Descriptor × Config))
    (tys : List ArgType) (args : List Str) : Nat → Descriptor → Config → Option (Descriptor × Config)
  | 0, d, config => some (d, config)
  | j + 1, d, config =>
    let argstr := args.getD j []
    match tys.getD j .aEmpty with
    | .aLayer =>
      if argstr = "main".toList then none
      else
        let idx := config_get_layer_index config argstr
        if idx = -1 ∨ (config.layers.getD idx.toNat default).type = .ltLayout then none
        else process_args env pd tys args j (d.setArg j idx) config
    | .aLayout =>
      let idx := config_get_layer_index config argstr
      if idx = -1 ∨ (config.layers.getD idx.toNat default).type ≠ .ltLayout then none
      else process_args env pd tys args j (d.setArg j idx) config
    | .aDescriptor =>
      match pd argstr config with
      | none => none
      | some (desc, config1) =>
        if env.max_descriptors ≤ config1.descriptors.length then none
        else
          process_args env pd tys args j (d.setArg j (config1.descriptors.length : Int))
            { config1 with descriptors := config1.descriptors ++ [desc] }
    | .aTimeout => process_args env pd tys args j (d.setArg j (atoi argstr)) config
    | .aMacro =>
      if env.max_macros ≤ config.macros.length then none
      else
        match parse_macro_expression env argstr with
        | .mOk m =>
          process_args env pd tys args j (d.setArg j (config.macros.length : Int))
            { config with macros := config.macros ++ [m] }
        | _ => none
    | .aEmpty => none

/-- Body of `parse_descriptor` (recursion abstracted as `pd`): empty text is
a no-op; then key sequence, `command(...)`, macro expression and the action
table are tried in that order; anything else is the fatal
"invalid key or action". -/
def parse_descriptor_body (env : Env) (pd : Str → Config → Option (Descriptor × Config))
    (s : Str) (config : Config) : Option (Descriptor × Config) :=
  if s = [] then some ({ op := .opNoop }, config)
  else
    match env.parse_key_sequence s with
    | some (code, mods) =>
      some ({ op := .opKeyseq, arg0 := ((code % 256 : Nat) : Int),
              arg1 := ((mods % 256 : Nat) : Int) }, config)
    | none =>
      match parse_command env s with
      | .cmdFatal => none
      | .cmdOk cmd =>
        if env.max_commands ≤ config.commands.length then none
        else some ({ op := .opCommand, arg0 := (config.commands.length : Int) },
          { config with commands := config.commands ++ [cmd] })
      | .cmdNot =>
        match parse_macro_expression env s with
        | .mFatal => none
        | .mOk m =>
          if env.max_macros ≤ config.macros.length then none
          else some ({ op := .opMacro, arg0 := (config.macros.length : Int) },
            { config with macros := config.macros ++ [m] })
        | .mInvalid =>
          match parse_fn s with
          | none => none
          | some (fn, args) =>
            match actions.find? (fun a => a.1 = fn) with
            | none => none
            | some (_, opc, tys) =>
              if args.length ≠ tys.length then none
              else process_args env pd tys args tys.length { op := opc } config

/-- `parse_descriptor`, with fuel bounding the `ARG_DESCRIPTOR` recursion
depth (one unit per nesting level; the C recursion is unbounded). -/
def parse_descriptor (env : Env) : Nat → Str → Config → Option (Descriptor × Config)
  | 0, _, _ => none
  | fuel + 1, s, config =>
    parse_descriptor_body env (fun t c => parse_descriptor env fuel t c) s config

/-- `new_layer`: splits `name[:type]`; a name containing `+` is a composite
whose parts must all be existing layers and which cannot carry a type; type
`layout` marks a layout; a modifier-set type marks a normal layer with those
modifiers; otherwise a normal layer with no modifiers.  The composite
capacity check compares `n`, which the source initialises to 0 and never
increments, so it fires only when the capacity itself is 0. -/
def new_layer (env : Env) (config : Config) (s : Str) : Option Layer :=
  let toks := strtok_all ':' s
  let name := toks.getD 0 []
  let type? := toks.get? 1
  if '+' ∈ name then
    if type?.isSome then none
    else
      let step := fun (acc : Option (List Int)) (p : Str) =>
        match acc with
        | none => none
        | some l =>
          let idx := config_get_layer_index config p
          if idx < 0 then none
          else if env.constituents_cap ≤ 0 then none
          else some (l ++ [idx])
      match (strtok_all '+' name).foldl step (some []) with
      | none => none
      | some idxs => some { name := name, type := .ltComposite, constituents := idxs }
  else
    match type? with
    | some ty =>
      if ty = "layout".toList then some { name := name, type := .ltLayout }
      else
        match env.parse_modset ty with
        | some mods => some { name := name, type := .ltNormal, mods := mods }
        | none => some { name := name, type := .ltNormal, mods := 0 }
    | none => some { name := name, type := .ltNormal, mods := 0 }

/-- `config_add_layer`: 1 when the name (before any `:`) already exists, -1
past the layer cap or when `new_layer` fails, else 0 with the layer
appended. -/
def config_add_layer (env : Env) (config : Config) (s : Str) : Int × Config :=
  let name := (strtok_all ':' s).getD 0 []
  if config_get_layer_index config name ≠ -1 then (1, config)
  else if env.max_layers ≤ config.layers.length then (-1, config)
  else
    match new_layer env config s with
    | none => (-1, config)
    | some l => (0, { config with layers := config.layers ++ [l] })

/-- Write one slot of `main`'s keymap (`config->layers[0]`; the C array
always has slot 0, the empty-list case is for totality only). -/
def set_main_keymap (config : Config) (code : Nat) (d : Descriptor) : Config :=
  match config.layers with
  | [] => config
  | l0 :: rest =>
    { config with
      layers := { l0 with keymap := fun i => if i = code then d else l0.keymap i } :: rest }

/-- `parse_alias_section`: for each entry whose key is a real keycode, a
value at or past the alias length cap is dropped with a warning; otherwise,
when the value itself names a keycode, `main`'s slot for the key becomes a
key-sequence emitting it with no modifiers; the value is then recorded as
the key's alias either way. -/
def parse_alias_section (env : Env) (config : Config) (entries : List (Str × Str)) : Config :=
  entries.foldl (fun config ent =>
    let code := lookup_keycode env ent.1
    if code = 0 then config
    else if env.alias_cap ≤ utf8_len ent.2 then config
    else
      let alias_code := lookup_keycode env ent.2
      let config1 :=
        if alias_code ≠ 0 then
          set_main_keymap config code { op := .opKeyseq, arg0 := (alias_code : Int), arg1 := 0 }
        else config
      { config1 with aliases := fun i => if i = code then ent.2 else config1.aliases i }) config

/-- Abstract file system: existence test (`access`) and file contents
(`fopen`/`open` + reads); the two may disagree, as they can on a real
system.  Contents are modelled at code-point granularity (exact for ASCII
configuration files). -/
structure FS where
  pathExists : Str → Bool
  read : Str → Option Str

/-- Modelled from libc `dirname` (the repository only calls it): the path up
to the last `/`, `.` when there is none. -/
def dirname (path : Str) : Str :=
  let pre := (path.reverse.dropWhile (fun c => c ≠ '/')).reverse
  match pre.dropLast with
  | [] => if pre = [] then ".".toList else "/".toList
  | d => d

/-- `resolve_include_path`: an argument containing `.` never resolves;
otherwise the including file's directory then `/usr/share/keyd/` are tried,
the first existing candidate winning. -/
def resolve_include_path (fs : FS) (path include_path : Str) : Option Str :=
  if '.' ∈ include_path then none
  else
    let cand1 := dirname path ++ "/".toList ++ include_path
    if fs.pathExists cand1 then some cand1
    else
      let cand2 := "/usr/share/keyd/".toList ++ include_path
      if fs.pathExists cand2 then some cand2 else none

/-- Content an `include ` line contributes: nothing when resolution or the
open fails (non-fatal), else the file's bytes truncated to the remaining
buffer space. -/
def include_expand (fs : FS) (path line : Str) (sz : Nat) : Str :=
  let include_path := (line.drop 8).dropLast
  match resolve_include_path fs path include_path with
  | none => []
  | some rp =>
    match fs.read rp with
    | none => []
    | some content => content.take (MAX_FILE_SZ - sz)

/-- One `fgets` call: up to `MAX_LINE_LEN - 1` characters, stopping after a
newline. -/
def fgets_take : Str → Nat → Str
  | _, 0 => []
  | [], _ => []
  | c :: cs, n + 1 => if c = '\n' then [c] else c :: fgets_take cs n

/-- The sequence of lines `fgets` produces from the file contents. -/
def fgets_split : Nat → Str → List Str
  | 0, _ => []
  | _, [] => []
  | fuel + 1, cs =>
    let chunk := fgets_take cs (MAX_LINE_LEN - 1)
    chunk :: fgets_split fuel (cs.drop chunk.length)

/-- The line loop of `read_file`: a line not ending in a newline is the
fatal line-length error; a line that would push the total past `MAX_FILE_SZ`
is the fatal size error; an `include ` line contributes its (possibly empty)
expansion; other lines are copied. -/
def read_lines (fs : FS) (path : Str) : List Str → Nat → Str → Option Str
  | [], _, acc => some acc
  | line :: rest, sz, acc =>
    if line.getLast? ≠ some '\n' then none
    else if MAX_FILE_SZ < line.length + sz then none
    else if "include ".toList.isPrefixOf line then
      let add := include_expand fs path line sz
      read_lines fs path rest (sz + add.length) (acc ++ add)
    else read_lines fs path rest (sz + line.length) (acc ++ line)

/-- `read_file`: fails when the root file cannot be opened, else processes
its `fgets` lines. -/
def read_file (fs : FS) (path : Str) : Option Str :=
  match fs.read path with
  | none => none
  | some content => read_lines fs path (fgets_split (content.length + 1) content) 0 []

/-- Failure predicate written from the amended specification text: loading
fails exactly when some line is not newline-terminated (which is also how an
over-long line surfaces, `fgets` having filled its buffer without one, and
how a file whose final line lacks a newline fails), or when copying a line
would push the accumulated size past `MAX_FILE_SZ`; include directives never
fail, an unresolved or unreadable include contributing nothing. -/
def spec_load_fails (fs : FS) (path : Str) : List Str → Nat → Bool
  | [], _ => false
  | line :: rest, sz =>
    if line.getLast? ≠ some '\n' then true
    else if MAX_FILE_SZ < line.length + sz then true
    else if "include ".toList.isPrefixOf line then
      spec_load_fails fs path rest (sz + (include_expand fs path line sz).length)
    else spec_load_fails fs path rest (sz + line.length)

/-- Modelled from the spec: the modifier names and bitmask bits the external
key-sequence parser and `parse_modset` recognise (control, meta, alt, shift,
altgr; the bit values are not in the repository). -/
def model_mod_names : List (Str × Nat) :=
  [("control".toList, 1), ("meta".toList, 2), ("alt".toList, 4),
   ("shift".toList, 8), ("altgr".toList, 16)]

/-- Modelled from the spec: a small concrete keycode table (name, alternate
name, shifted display name) standing in for the external `keycode_table`. -/
def model_keys : List (Nat × KeycodeEnt) :=
  [(1, ⟨some ("esc".toList), none, none⟩),
   (2, ⟨some ("1".toList), none, some ("!".toList)⟩),
   (30, ⟨some ("a".toList), none, some ("A".toList)⟩),
   (48, ⟨some ("b".toList), none, some ("B".toList)⟩),
   (46, ⟨some ("c".toList), none, some ("C".toList)⟩),
   (57, ⟨some ("space".toList), none, none⟩)]

/-- The model keycode table as a total function on indices. -/
def model_keycode_table (i : Nat) : KeycodeEnt :=
  match model_keys.find? (fun e => e.1 = i) with
  | some e => e.2
  | none => ⟨none, none, none⟩

/-- Name lookup against the model keycode table (0 when absent). -/
def model_lookup_key (name : Str) : Nat :=
  match model_keys.find? (fun e => e.2.name = some name ∨ e.2.alt_name = some name) with
  | some e => e.1
  | none => 0

/-- Modelled from the spec: the external key-sequence parser for
`[modifiers+]keyname` text — every part before the last must be a modifier
name, the last must be a key name; `some (code, mods)` on success. -/
def model_parse_key_sequence (s : Str) : Option (Nat × Nat) :=
  let parts := strtok_all '+' s
  match parts.getLast? with
  | none => none
  | some key =>
    let code := model_lookup_key key
    if code = 0 then none
    else
      let mods? := (parts.dropLast).foldl (fun acc p =>
        acc.bind (fun m =>
          match model_mod_names.find? (fun e => e.1 = p) with
          | some e => some (m ||| e.2)
          | none => none)) (some 0)
      match mods? with
      | none => none
      | some mods => some (code, mods)

/-- Modelled from the spec: the external in-place backslash-escape decoder
(`\n` and `\t` decode, any other escaped character stands for itself). -/
def model_str_escape : Str → Str
  | [] => []
  | ['\\'] => ['\\']
  | '\\' :: c :: rest =>
    (match c with
     | 'n' => '\n'
     | 't' => '\t'
     | _ => c) :: model_str_escape rest
  | c :: rest => c :: model_str_escape rest

/-- Modelled from the spec: the external `parse_modset` — each character is
one of the modifier flags C, M, A, S, G. -/
def model_parse_modset (s : Str) : Option Nat :=
  s.foldl (fun acc c =>
    acc.bind (fun m =>
      match c with
      | 'C' => some (m ||| 1)
      | 'M' => some (m ||| 2)
      | 'A' => some (m ||| 4)
      | 'S' => some (m ||| 8)
      | 'G' => some (m ||| 16)
      | _ => none)) (some 0)

/-- Modelled from the spec: a concrete environment instantiating the
external collaborators and the capacity ceilings of the missing `keyd.h`
(the exact ceiling values are implementation-defined). -/
def model_env : Env :=
  { parse_key_sequence := model_parse_key_sequence
    str_escape := model_str_escape
    keycode_table := model_keycode_table
    lookup_xcompose_index := fun _ => 0
    parse_modset := model_parse_modset
    mod_shift := 8
    macro_cap := 32
    cmd_cap := 256
    alias_cap := 32
    max_layers := 32
    max_macros := 32
    max_commands := 8
    max_descriptors := 64
    constituents_cap := 8 }

/-- A well-formedness condition on a layer name used as a function argument:
nonempty and free of the characters the argument scanner treats specially
(escape, parentheses, comma) and of spaces. -/
def clean_arg (s : Str) : Prop :=
  s ≠ [] ∧ ∀ c ∈ s, c ≠ '\\' ∧ c ≠ '(' ∧ c ≠ ')' ∧ c ≠ ',' ∧ c ≠ ' '

/-- The canonical call of each toggle-class action with the given layer
argument (two-argument actions get a compiling filler second argument). -/
def layer_arg_exprs (g : Str) : List Str :=
  [("swap".toList ++ ['(']) ++ (g ++ [')']),
   ("swap2".toList ++ ['(']) ++ (g ++ (',' :: ("macro(200ms))".toList))),
   ("oneshot".toList ++ ['(']) ++ (g ++ [')']),
   ("toggle".toList ++ ['(']) ++ (g ++ [')']),
   ("toggle2".toList ++ ['(']) ++ (g ++ (',' :: ("macro(200ms))".toList))),
   ("layer".toList ++ ['(']) ++ (g ++ [')']),
   ("overload".toList ++ ['(']) ++ (g ++ (',' :: ("b)".toList)))]

/-- A seeded configuration for witnesses: `main`, the modifier layer
`control`, a plain user layer `foo` and a layout layer `lay`. -/
def cfg_seed : Config :=
  { layers := [{ name := "main".toList },
               { name := "control".toList, mods := 1 },
               { name := "foo".toList },
               { name := "lay".toList, type := .ltLayout }] }

/-- A device-id configuration for witnesses: id 258 allowed and excluded,
259 only excluded, wildcard off. -/
def cfg_ids : Config := { ids := [258], excluded_ids := [258, 259] }

/-- A file system holding one file `/cfg` whose single line has no trailing
newline. -/
def fs_unterminated : FS :=
  { pathExists := fun _ => false
    read := fun p => if p = "/cfg".toList then some ("a".toList) else none }

/-- A wrapped macro holding a chord with 33 parts, one more than the model
macro-entry capacity. -/
def big_chord : Str :=
  "macro(".toList ++ (List.intercalate ['+'] (List.replicate 33 ("a".toList))) ++ [')']

/-! ### General lemmas about the embedded operations -/

/-- Text that does not start with `command(` is never a command. -/
theorem parse_command_not_of (env : Env) (s : Str)
    (h : ("command(".toList).isPrefixOf s = false) : parse_command env s = .cmdNot := by
  unfold parse_command
  rw [if_pos (Or.inr (Or.inl (by rw [h]; decide)))]

/-- The not-a-macro gate: unwrapped text that is neither a key sequence nor
a single code point is rejected (over-long text is rejected the same way). -/
theorem macro_invalid_of (env : Env) (s : Str) (hw : macro_wrapped s = false)
    (hp : env.parse_key_sequence s = none) (hl : s.length ≠ 1) :
    parse_macro_expression env s = .mInvalid := by
  unfold parse_macro_expression
  by_cases hsz : 1024 ≤ utf8_len s
  · rw [if_pos hsz]
  · rw [if_neg hsz, if_neg (by simp [hw]), if_pos ⟨hp, hl⟩]

/-- The argument-list loop never stores an empty argument. -/
theorem parse_args_no_empty : ∀ (fuel : Nat) (cs : Str) (acc : List Str), [] ∉ acc →
    ∀ args, parse_args fuel cs acc = some args → [] ∉ args := by
  intro fuel
  induction fuel with
  | zero => intro cs acc _ args h; simp [parse_args] at h
  | succ n ih =>
    intro cs acc hacc args h
    simp only [parse_args] at h
    cases hscan : scan_arg cs 0 [] with
    | none => rw [hscan] at h; simp at h
    | some t =>
      obtain ⟨arg, term, rest⟩ := t
      rw [hscan] at h
      simp only at h
      by_cases hassert : arg ≠ [] ∧ MAX_DESCRIPTOR_ARGS ≤ acc.length
      · rw [if_pos hassert] at h; simp at h
      · rw [if_neg hassert] at h
        have hacc2 : [] ∉ (if arg = [] then acc else acc ++ [arg]) := by
          by_cases ha : arg = []
          · simpa [ha] using hacc
          · simp [ha, hacc, Ne.symm ha]
        by_cases hterm : term = ')'
        · rw [if_pos hterm] at h
          cases h
          exact hacc2
        · rw [if_neg hterm] at h
          exact ih _ _ hacc2 _ h

/-! ### C2 — device-id match precedence -/

/-- C2: the device-id match returns allow (2) when the id is on the allow
list — membership there strictly dominating the exclude list — else
excluded ids force no-match (0), else the wildcard flag decides between
wildcard (1) and no-match (0). -/
theorem c2_device_id_match_precedence (config : Config) (id : Nat) :
    (id ∈ config.ids → config_check_match config id = 2) ∧
    (id ∉ config.ids → id ∈ config.excluded_ids → config_check_match config id = 0) ∧
    (id ∉ config.ids → id ∉ config.excluded_ids →
      config_check_match config id = if config.wildcard then 1 else 0) ∧
    (id ∈ config.ids → id ∈ config.excluded_ids → config_check_match config id = 2) := by
  unfold config_check_match
  refine ⟨?_, ?_, ?_, ?_⟩ <;> intros <;> simp [*]

/-- Witness for C2 on `cfg_ids`: id 258 is on both lists and the allow list
wins; 259 is only excluded; 260 is on neither list. -/
theorem c2_device_id_match_precedence_witness :
    config_check_match cfg_ids 258 = 2 ∧
    config_check_match cfg_ids 259 = 0 ∧
    config_check_match cfg_ids 260 = if cfg_ids.wildcard then 1 else 0 :=
  ⟨(c2_device_id_match_precedence cfg_ids 258).2.2.2 (by decide) (by decide),
   (c2_device_id_match_precedence cfg_ids 259).2.1 (by decide) (by decide),
   (c2_device_id_match_precedence cfg_ids 260).2.2.1 (by decide) (by decide)⟩

/-! ### C10 — empty arguments are dropped -/

/-- C10: the argument scanner silently drops empty arguments instead of
passing empty strings, so the count checked against an operation's arity
counts only non-empty arguments: `toggle2(a,)` presents the single argument
`a` and, as `toggle2` requires two arguments, compiling it fails. -/
theorem c10_empty_arguments_dropped :
    (∀ s fn args, parse_fn s = some (fn, args) → [] ∉ args) ∧
    parse_fn ("toggle2(a,)".toList) = some ("toggle2".toList, [("a".toList)]) ∧
    (∀ (env : Env) (config : Config) (fuel : Nat),
      env.parse_key_sequence ("toggle2(a,)".toList) = none →
      parse_descriptor env (fuel + 1) ("toggle2(a,)".toList) config = none) := by
  refine ⟨?_, by decide, ?_⟩
  · intro s fn args h
    simp only [parse_fn] at h
    cases hdrop : s.dropWhile (fun c => c ≠ '(') with
    | nil => rw [hdrop] at h; simp at h
    | cons c cs =>
      rw [hdrop] at h
      simp only at h
      cases hpa : parse_args ((skip_spaces cs).length + 1) (skip_spaces cs) [] with
      | none => rw [hpa] at h; simp at h
      | some args2 =>
        rw [hpa] at h
        simp only [Option.some.injEq, Prod.mk.injEq] at h
        obtain ⟨-, rfl⟩ := h
        exact parse_args_no_empty _ _ _ (by simp) _ hpa
  · intro env config fuel hpks
    simp only [parse_descriptor]
    unfold parse_descriptor_body
    rw [if_neg (by decide), hpks, parse_command_not_of env _ (by decide),
      macro_invalid_of env _ (by decide) hpks (by decide)]
    rfl

/-- Witness for C10's conditional part at the model environment. -/
theorem c10_empty_arguments_dropped_witness :
    parse_descriptor model_env 1 ("toggle2(a,)".toList) cfg_seed = none :=
  c10_empty_arguments_dropped.2.2 model_env cfg_seed 0 (by decide)

/-! ### C9 — dotted include paths never resolve -/

/-- C9: an include argument containing `.` anywhere never resolves — for
every file system, so independently of what exists on disk — and the loader
skips such a directive, continuing with the remaining lines. -/
theorem c9_dotted_include_never_resolves :
    (∀ (fs : FS) (path ipath : Str), '.' ∈ ipath → resolve_include_path fs path ipath = none) ∧
    (∀ (fs : FS) (path ipath : Str) (rest : List Str) (sz : Nat) (acc : Str), '.' ∈ ipath →
      (("include ".toList ++ ipath) ++ ['\n']).length + sz ≤ MAX_FILE_SZ →
      read_lines fs path ((("include ".toList ++ ipath) ++ ['\n']) :: rest) sz acc =
        read_lines fs path rest sz acc) := by
  have hres : ∀ (fs : FS) (path ipath : Str), '.' ∈ ipath →
      resolve_include_path fs path ipath = none := by
    intro fs path ipath h
    unfold resolve_include_path
    rw [if_pos h]
  refine ⟨hres, ?_⟩
  intro fs path ipath rest sz acc hdot hsz
  have hlast : ((("include ".toList ++ ipath) ++ ['\n'])).getLast? = some '\n' :=
    List.getLast?_concat _
  have hpre : ("include ".toList).isPrefixOf (("include ".toList ++ ipath) ++ ['\n']) = true := by
    rw [List.isPrefixOf_iff_prefix, List.append_assoc]
    exact List.prefix_append _ _
  have hip : (((("include ".toList ++ ipath) ++ ['\n'])).drop 8).dropLast = ipath := by
    rw [List.append_assoc,
      show (8 : Nat) = ("include ".toList).length from rfl, List.drop_left,
      List.dropLast_concat]
  have hexp : include_expand fs path (("include ".toList ++ ipath) ++ ['\n']) sz = [] := by
    unfold include_expand
    rw [hip]
    simp only [hres fs path ipath hdot]
  simp only [read_lines, hlast, hexp]
  rw [if_neg (by simp), if_neg (by omega), if_pos (by rw [hpre])]
  simp

/-- Witness for C9 at concrete inputs: the dotted path `foo.bar` neither
resolves (even though the file exists) nor aborts the load. -/
theorem c9_dotted_include_never_resolves_witness :
    resolve_include_path
      { pathExists := fun _ => true, read := fun _ => some [] } ("/cfg".toList)
      ("foo.bar".toList) = none ∧
    read_lines fs_unterminated ("/cfg".toList)
      ((("include ".toList ++ ("foo.bar".toList)) ++ ['\n']) :: []) 0 [] =
      read_lines fs_unterminated ("/cfg".toList) [] 0 [] :=
  ⟨c9_dotted_include_never_resolves.1 _ _ _ (by decide),
   c9_dotted_include_never_resolves.2 _ _ _ _ _ _ (by decide) (by decide)⟩

/-! ### C8 — fatal and non-fatal loader failures -/

/-- Equivalence of the loader's failure with the specification-side failure
predicate, by induction over the lines. -/
theorem read_lines_none_iff (fs : FS) (path : Str) :
    ∀ (lines : List Str) (sz : Nat) (acc : Str),
      (read_lines fs path lines sz acc = none ↔ spec_load_fails fs path lines sz = true) := by
  intro lines
  induction lines with
  | nil => intro sz acc; simp [read_lines, spec_load_fails]
  | cons line rest ih =>
    intro sz acc
    simp only [read_lines, spec_load_fails]
    split_ifs <;> simp [ih]

/-- C8 (amended): loading fails exactly when the root file cannot be opened
or the specification-side failure predicate holds of its lines — some line
is not newline-terminated (how both an over-long line and an unterminated
final line surface) or would push the accumulated size past the maximum —
while an include directive merely contributes its (possibly empty) expansion
and never aborts. -/
theorem c8_load_failure_conditions :
    (∀ (fs : FS) (path : Str), read_file fs path = none ↔
      (fs.read path = none ∨ ∃ content, fs.read path = some content ∧
        spec_load_fails fs path (fgets_split (content.length + 1) content) 0 = true)) ∧
    (∀ (fs : FS) (path line : Str) (rest : List Str) (sz : Nat) (acc : Str),
      ("include ".toList).isPrefixOf line = true → line.getLast? = some '\n' →
      line.length + sz ≤ MAX_FILE_SZ →
      read_lines fs path (line :: rest) sz acc =
        read_lines fs path rest (sz + (include_expand fs path line sz).length)
          (acc ++ include_expand fs path line sz)) := by
  constructor
  · intro fs path
    unfold read_file
    cases hr : fs.read path with
    | none => simp
    | some content => simp [read_lines_none_iff]
  · intro fs path line rest sz acc hpre hlast hsz
    simp only [read_lines]
    rw [if_neg (by simp [hlast]), if_neg (by omega), if_pos (by rw [hpre])]

/-- Witness for C8's conditional parts: a one-line include-only file loads
to the include's (empty) expansion. -/
theorem c8_load_failure_conditions_witness :
    read_lines fs_unterminated ("/cfg".toList) [("include x\n".toList)] 0 [] =
      read_lines fs_unterminated ("/cfg".toList) []
        (0 + (include_expand fs_unterminated ("/cfg".toList) ("include x\n".toList) 0).length)
        ([] ++ include_expand fs_unterminated ("/cfg".toList) ("include x\n".toList) 0) :=
  c8_load_failure_conditions.2 fs_unterminated ("/cfg".toList) ("include x\n".toList) [] 0 []
    (by decide) (by decide) (by decide)

/-- Counterexample to C8 as stated: `/cfg` opens fine, its single line is
far below the line-length cap and the total size is far below the file cap,
yet loading fails fatally — the final line lacks a terminating newline. -/
theorem c8_unterminated_line_counterexample :
    read_file fs_unterminated ("/cfg".toList) = none ∧
    fs_unterminated.read ("/cfg".toList) ≠ none ∧
    (∀ line ∈ fgets_split (("a".toList).length + 1) ("a".toList), line.length ≤ MAX_LINE_LEN) ∧
    ("a".toList).length ≤ MAX_FILE_SZ :=
  ⟨by decide, by decide, by decide, by decide⟩

/-! ### C3 — the not-a-macro gate -/

/-- C3: unwrapped macro text compiles only when it parses as a single key
sequence or decodes as exactly one literal character — otherwise the result
is the not-a-macro failure the descriptor compiler falls through on — while
`macro(...)`-wrapped text has the wrapper stripped and the inner text
compiled with no such restriction. -/
theorem c3_macro_gate (env : Env) :
    (∀ s : Str, macro_wrapped s = false → env.parse_key_sequence s = none → s.length ≠ 1 →
      parse_macro_expression env s = .mInvalid) ∧
    (∀ inner : Str, utf8_len (("macro(".toList ++ inner) ++ [')']) < 1024 →
      parse_macro_expression env (("macro(".toList ++ inner) ++ [')']) =
        macro_compile_body env inner) ∧
    (∀ s : Str, utf8_len s < 1024 → macro_wrapped s = false →
      (env.parse_key_sequence s ≠ none ∨ s.length = 1) →
      parse_macro_expression env s = macro_compile_body env s) := by
  refine ⟨fun s hw hp hl => macro_invalid_of env s hw hp hl, ?_, ?_⟩
  · intro inner hsz
    have hwrap : macro_wrapped (("macro(".toList ++ inner) ++ [')']) = true := by
      unfold macro_wrapped
      rw [Bool.and_eq_true]
      constructor
      · rw [List.isPrefixOf_iff_prefix, List.append_assoc]
        exact List.prefix_append _ _
      · rw [List.getLast?_concat]
        decide
    have hstrip : ((("macro(".toList ++ inner) ++ [')']).dropLast).drop 6 = inner := by
      rw [List.dropLast_concat, show (6 : Nat) = ("macro(".toList).length from rfl,
        List.drop_left]
    unfold parse_macro_expression
    rw [if_neg (by omega), if_pos (by rw [hwrap]), hstrip]
  · intro s hsz hw hor
    unfold parse_macro_expression
    rw [if_neg (by omega), if_neg (by simp [hw]), if_neg ?hgate]
    case hgate =>
      intro hc
      rcases hor with h | h
      · exact h hc.1
      · exact hc.2 h

/-- Witness for C3 at the model environment: `a+b` bare is rejected, the
wrapped and single-key forms compile their bodies. -/
theorem c3_macro_gate_witness :
    parse_macro_expression model_env ("a+b".toList) = .mInvalid ∧
    parse_macro_expression model_env (("macro(".toList ++ ("b".toList)) ++ [')']) =
      macro_compile_body model_env ("b".toList) ∧
    parse_macro_expression model_env ("b".toList) = macro_compile_body model_env ("b".toList) :=
  ⟨(c3_macro_gate model_env).1 _ (by decide) (by decide) (by decide),
   (c3_macro_gate model_env).2.1 _ (by decide),
   (c3_macro_gate model_env).2.2 _ (by decide) (by decide) (Or.inl (by decide))⟩

/-! ### C4 — macro compilation results and the entry capacity -/

/-- Compiling the wrapped timeout macro `macro(200ms)` yields exactly one
Timeout entry of 200 ms. -/
theorem macro_200ms_ok (env : Env)
    (hesc : env.str_escape ("200ms".toList) = "200ms".toList)
    (hp : env.parse_key_sequence ("200ms".toList) = none)
    (hcap : 1 ≤ env.macro_cap) :
    parse_macro_expression env ("macro(200ms)".toList) = .mOk [⟨.eTimeout, 200⟩] := by
  have h0 : ¬(env.macro_cap ≤ 0) := by omega
  have htok : compile_token env [] ("200ms".toList) = .ok [⟨.eTimeout, 200⟩] := by
    simp only [compile_token, hp]
    rw [if_neg (by decide), if_pos (by decide)]
    simp only [macro_add, List.length_nil, h0, if_false]
    rw [show atoi ("200ms".toList) = 200 from rfl]
    rfl
  have hbody : macro_compile_body env ("200ms".toList) = .mOk [⟨.eTimeout, 200⟩] := by
    unfold macro_compile_body
    rw [hesc, show strtok_all ' ' ("200ms".toList) = [("200ms".toList)] from rfl]
    simp only [compile_tokens, htok]
  unfold parse_macro_expression
  rw [if_neg (by decide), if_pos (by decide),
    show ((("macro(200ms)".toList).dropLast).drop 6) = "200ms".toList from rfl]
  exact hbody

/-- Compiling the wrapped chord macro `macro(a+b)` yields Hold entries in
press order followed by one Release. -/
theorem macro_ab_ok (env : Env) (ca ma cb mb : Nat)
    (hesc : env.str_escape ("a+b".toList) = "a+b".toList)
    (hab : env.parse_key_sequence ("a+b".toList) = none)
    (ha : env.parse_key_sequence ("a".toList) = some (ca, ma))
    (hb : env.parse_key_sequence ("b".toList) = some (cb, mb))
    (hca : ca < 256) (hcb : cb < 256)
    (hcap : 3 ≤ env.macro_cap) :
    parse_macro_expression env ("macro(a+b)".toList) =
      .mOk [⟨.eHold, (ca : Int)⟩, ⟨.eHold, (cb : Int)⟩, ⟨.eRelease, 0⟩] := by
  have h0 : ¬(env.macro_cap ≤ 0) := by omega
  have h0' : ¬(env.macro_cap = 0) := by omega
  have h1 : ¬(env.macro_cap ≤ 1) := by omega
  have h2 : ¬(env.macro_cap ≤ 2) := by omega
  have ha' : env.parse_key_sequence ['a'] = some (ca, ma) := ha
  have hb' : env.parse_key_sequence ['b'] = some (cb, mb) := hb
  have hab' : env.parse_key_sequence ['a', '+', 'b'] = none := hab
  have hca' : ca % 256 = ca := Nat.mod_eq_of_lt hca
  have hcb' : cb % 256 = cb := Nat.mod_eq_of_lt hcb
  have hchord : compile_chord_parts env [] [['a'], ['b']] =
      .ok [⟨.eHold, (ca : Int)⟩, ⟨.eHold, (cb : Int)⟩] := by
    simp [compile_chord_parts, ha', hb', macro_add, h0, h0', h1, hca', hcb',
      show is_ms_token ['a'] = false from rfl,
      show is_ms_token ['b'] = false from rfl]
  have htok : compile_token env [] ['a', '+', 'b'] =
      .ok [⟨.eHold, (ca : Int)⟩, ⟨.eHold, (cb : Int)⟩, ⟨.eRelease, 0⟩] := by
    simp [compile_token, hab', macro_add, h2, h0',
      show strtok_all '+' ['a', '+', 'b'] = [['a'], ['b']] from rfl,
      show ('+' ∈ (['a', '+', 'b'] : Str)) from by decide, hchord]
  have hbody : macro_compile_body env ['a', '+', 'b'] =
      .mOk [⟨.eHold, (ca : Int)⟩, ⟨.eHold, (cb : Int)⟩, ⟨.eRelease, 0⟩] := by
    unfold macro_compile_body
    have hesc' : env.str_escape ['a', '+', 'b'] = ['a', '+', 'b'] := hesc
    rw [hesc', show strtok_all ' ' ['a', '+', 'b'] = [['a', '+', 'b']] from rfl]
    simp only [compile_tokens, htok]
  unfold parse_macro_expression
  rw [if_neg (by decide), if_pos (by decide),
    show ((("macro(a+b)".toList).dropLast).drop 6) = ['a', '+', 'b'] from rfl]
  exact hbody

/-- `ADD_ENTRY` keeps the entry list within the macro capacity. -/
theorem macro_add_le (env : Env) (es : List MEntry) (t : MEntryType) (d : Int)
    (es2 : List MEntry) (h : macro_add env es t d = .ok es2) :
    es2.length ≤ env.macro_cap := by
  unfold macro_add at h
  split at h
  · cases h
  · cases h
    simp only [List.length_append, List.length_singleton]
    omega

/-- Literal-text compilation keeps the entry list within the capacity. -/
theorem compile_literal_le (env : Env) : ∀ (s : Str) (es : List MEntry),
    es.length ≤ env.macro_cap → ∀ es2, compile_literal env es s = .ok es2 →
    es2.length ≤ env.macro_cap := by
  intro s
  induction s with
  | nil =>
    intro es h es2 he
    simp only [compile_literal] at he
    cases he
    exact h
  | cons c rest ih =>
    intro es h es2 he
    simp only [compile_literal] at he
    split at he
    case h_2 => cases he
    case h_1 es' heq =>
      refine ih es' ?_ es2 he
      split at heq
      · split at heq
        · exact macro_add_le env es _ _ _ heq
        · cases heq; exact h
      · split at heq
        · exact macro_add_le env es _ _ _ heq
        · cases heq; exact h

/-- Chord compilation keeps the entry list within the capacity. -/
theorem compile_chord_parts_le (env : Env) : ∀ (parts : List Str) (es : List MEntry),
    es.length ≤ env.macro_cap → ∀ es2, compile_chord_parts env es parts = .ok es2 →
    es2.length ≤ env.macro_cap := by
  intro parts
  induction parts with
  | nil =>
    intro es h es2 he
    simp only [compile_chord_parts] at he
    cases he
    exact h
  | cons key keys ih =>
    intro es h es2 he
    simp only [compile_chord_parts] at he
    split at he
    case h_2 => cases he
    case h_1 es' heq =>
      refine ih es' ?_ es2 he
      split at heq
      · exact macro_add_le env es _ _ _ heq
      · split at heq
        · exact macro_add_le env es _ _ _ heq
        · cases heq

/-- One macro token keeps the entry list within the capacity. -/
theorem compile_token_le (env : Env) (es : List MEntry) (tok : Str)
    (h : es.length ≤ env.macro_cap) (es2 : List MEntry)
    (he : compile_token env es tok = .ok es2) : es2.length ≤ env.macro_cap := by
  unfold compile_token at he
  split at he
  · exact macro_add_le env es _ _ _ he
  · split at he
    · split at he
      · exact macro_add_le env _ _ _ _ he
      · cases he
    · split at he
      · exact macro_add_le env es _ _ _ he
      · exact compile_literal_le env tok es h es2 he

/-- The token loop keeps the entry list within the capacity. -/
theorem compile_tokens_le (env : Env) : ∀ (ts : List Str) (es : List MEntry),
    es.length ≤ env.macro_cap → ∀ es2, compile_tokens env es ts = .ok es2 →
    es2.length ≤ env.macro_cap := by
  intro ts
  induction ts with
  | nil =>
    intro es h es2 he
    simp only [compile_tokens] at he
    cases he
    exact h
  | cons t ts2 ih =>
    intro es h es2 he
    simp only [compile_tokens] at he
    split at he
    case h_2 => cases he
    case h_1 es' heq => exact ih es' (compile_token_le env es t h es' heq) es2 he

/-- A successfully compiled macro never exceeds the macro-entry capacity. -/
theorem parse_macro_ok_le (env : Env) (s : Str) (m : List MEntry)
    (h : parse_macro_expression env s = .mOk m) : m.length ≤ env.macro_cap := by
  have hbody : ∀ p, macro_compile_body env p = .mOk m → m.length ≤ env.macro_cap := by
    intro p hp
    unfold macro_compile_body at hp
    split at hp
    case h_1 es heq => cases hp; exact compile_tokens_le env _ [] (Nat.zero_le _) _ heq
    case h_2 => cases hp
    case h_3 => cases hp
  unfold parse_macro_expression at h
  split_ifs at h
  · exact hbody _ h
  · exact hbody _ h

/-- C4 (amended): the wrapped macro text `macro(200ms)` compiles to a single
Timeout entry of 200 (the bare text `200ms` is rejected by the not-a-macro
gate, see the counterexample); `macro(a+b)` compiles to exactly
`[Hold(a), Hold(b), Release]` with Hold order reflecting left-to-right press
order; and compilation never produces more entries than the fixed capacity —
in particular a chord with more parts than the capacity is fatal. -/
theorem c4_macro_compilation_amended (env : Env) (ca ma cb mb : Nat)
    (hesc200 : env.str_escape ("200ms".toList) = "200ms".toList)
    (hp200 : env.parse_key_sequence ("200ms".toList) = none)
    (hescab : env.str_escape ("a+b".toList) = "a+b".toList)
    (hab : env.parse_key_sequence ("a+b".toList) = none)
    (ha : env.parse_key_sequence ("a".toList) = some (ca, ma))
    (hb : env.parse_key_sequence ("b".toList) = some (cb, mb))
    (hca : ca < 256) (hcb : cb < 256)
    (hcap : 3 ≤ env.macro_cap) :
    parse_macro_expression env ("macro(200ms)".toList) = .mOk [⟨.eTimeout, 200⟩] ∧
    parse_macro_expression env ("macro(a+b)".toList) =
      .mOk [⟨.eHold, (ca : Int)⟩, ⟨.eHold, (cb : Int)⟩, ⟨.eRelease, 0⟩] ∧
    (∀ (s : Str) (m : List MEntry), parse_macro_expression env s = .mOk m →
      m.length ≤ env.macro_cap) ∧
    parse_macro_expression model_env big_chord = .mFatal :=
  ⟨macro_200ms_ok env hesc200 hp200 (by omega),
   macro_ab_ok env ca ma cb mb hescab hab ha hb hca hcb hcap,
   fun s m h => parse_macro_ok_le env s m h,
   by decide⟩

/-- Witness for C4's amended statement at the model environment. -/
theorem c4_macro_compilation_amended_witness :
    parse_macro_expression model_env ("macro(200ms)".toList) = .mOk [⟨.eTimeout, 200⟩] ∧
    parse_macro_expression model_env ("macro(a+b)".toList) =
      .mOk [⟨.eHold, 30⟩, ⟨.eHold, 48⟩, ⟨.eRelease, 0⟩] :=
  ⟨(c4_macro_compilation_amended model_env 30 0 48 0 (by decide) (by decide) (by decide)
      (by decide) (by decide) (by decide) (by decide) (by decide) (by decide)).1,
   (c4_macro_compilation_amended model_env 30 0 48 0 (by decide) (by decide) (by decide)
      (by decide) (by decide) (by decide) (by decide) (by decide) (by decide)).2.1⟩

/-- Counterexample to C4 as stated: the bare macro texts `200ms` and `a+b`
do not compile to entry sequences at all — the not-a-macro gate rejects
them — so only their `macro(...)`-wrapped forms produce the claimed
entries. -/
theorem c4_bare_text_counterexample :
    parse_macro_expression model_env ("200ms".toList) = .mInvalid ∧
    parse_macro_expression model_env ("200ms".toList) ≠ .mOk [⟨.eTimeout, 200⟩] ∧
    parse_macro_expression model_env ("a+b".toList) ≠
      .mOk [⟨.eHold, 30⟩, ⟨.eHold, 48⟩, ⟨.eRelease, 0⟩] :=
  ⟨by decide, by decide, by decide⟩

/-! ### C7 — the alias section -/

/-- C7: for an alias entry whose key resolves to keycode `code`, a value
within the length cap that itself names a keycode overwrites `main`'s keymap
slot for `code` with a KeySequence emitting that code with no modifiers and
records the alias; a value within the cap naming no keycode leaves the
layers untouched but still records the alias; a value at or past the cap is
rejected and nothing is stored. -/
theorem c7_alias_entry (env : Env) (config : Config) (l0 : Layer) (rest : List Layer)
    (k v : Str) (code : Nat)
    (hl : config.layers = l0 :: rest)
    (hk : lookup_keycode env k = code) (hk0 : code ≠ 0) :
    (utf8_len v < env.alias_cap → lookup_keycode env v ≠ 0 →
      parse_alias_section env config [(k, v)] =
        { config with
          layers :=
            (({ l0 with keymap := fun i =>
                (if i = code then
                  { op := .opKeyseq, arg0 := (lookup_keycode env v : Int), arg1 := 0 }
                else l0.keymap i) }) :: rest),
          aliases := fun i => if i = code then v else config.aliases i }) ∧
    (utf8_len v < env.alias_cap → lookup_keycode env v = 0 →
      parse_alias_section env config [(k, v)] =
        { config with aliases := fun i => if i = code then v else config.aliases i }) ∧
    (env.alias_cap ≤ utf8_len v → parse_alias_section env config [(k, v)] = config) := by
  refine ⟨?_, ?_, ?_⟩
  · intro hlen hv
    simp only [parse_alias_section, List.foldl_cons, List.foldl_nil, hk]
    rw [if_neg hk0, if_neg (by omega), if_pos hv]
    unfold set_main_keymap
    rw [hl]
  · intro hlen hv
    simp only [parse_alias_section, List.foldl_cons, List.foldl_nil, hk]
    rw [if_neg hk0, if_neg (by omega), if_neg (by simp [hv])]
  · intro hlen
    simp only [parse_alias_section, List.foldl_cons, List.foldl_nil, hk]
    rw [if_neg hk0, if_pos hlen]

/-- Witness for C7 at the model environment on `cfg_seed`: `esc -> b`
rebinds `main`'s slot 1 and records the alias, while an over-long value
changes nothing. -/
theorem c7_alias_entry_witness :
    (parse_alias_section model_env cfg_seed [(("esc".toList), ("b".toList))]).aliases 1 =
      "b".toList ∧
    ((parse_alias_section model_env cfg_seed
        [(("esc".toList), ("b".toList))]).layers.headD default).keymap 1 =
      { op := .opKeyseq, arg0 := 48, arg1 := 0 } ∧
    parse_alias_section model_env cfg_seed [(("esc".toList), (List.replicate 40 'x'))] =
      cfg_seed := by
  have h1 := (c7_alias_entry model_env cfg_seed { name := "main".toList } _
    ("esc".toList) ("b".toList) 1 rfl (by decide) (by decide)).1 (by decide) (by decide)
  have h3 := (c7_alias_entry model_env cfg_seed { name := "main".toList } _
    ("esc".toList) (List.replicate 40 'x') 1 rfl (by decide) (by decide)).2.2 (by decide)
  exact ⟨by rw [h1]; rfl, by rw [h1]; rfl, h3⟩

/-! ### C6 — composite layer declarations -/

/-- Scanning over characters different from the delimiter only moves them
into the accumulator. -/
theorem strtok_aux_append (d : Char) : ∀ (g cur rest : Str), (∀ c ∈ g, c ≠ d) →
    strtok_aux d cur (g ++ rest) = strtok_aux d (g.reverse ++ cur) rest := by
  intro g
  induction g with
  | nil => intro cur rest _; simp
  | cons c g' ih =>
    intro cur rest h
    have hc : c ≠ d := h c (by simp)
    simp only [List.cons_append, strtok_aux]
    rw [if_neg hc,
      show strtok_aux d (c :: cur) (List.append g' rest) =
        strtok_aux d (c :: cur) (g' ++ rest) from rfl,
      ih (c :: cur) rest (fun x hx => h x (List.mem_cons_of_mem _ hx))]
    simp [List.append_assoc]

/-- A delimiter-free nonempty string is one token. -/
theorem strtok_all_single (d : Char) (s : Str) (h : ∀ c ∈ s, c ≠ d) (hne : s ≠ []) :
    strtok_all d s = [s] := by
  unfold strtok_all
  have happ := strtok_aux_append d s [] [] h
  rw [List.append_nil] at happ
  rw [happ]
  simp only [strtok_aux, List.append_nil]
  rw [if_neg (by simpa using hne)]
  simp

/-- Two delimiter-free nonempty strings around one delimiter are two
tokens. -/
theorem strtok_all_pair (d : Char) (a b : Str) (ha : ∀ c ∈ a, c ≠ d) (hb : ∀ c ∈ b, c ≠ d)
    (hane : a ≠ []) (hbne : b ≠ []) :
    strtok_all d (a ++ d :: b) = [a, b] := by
  unfold strtok_all
  rw [strtok_aux_append d a [] (d :: b) ha]
  rw [List.append_nil]
  simp only [strtok_aux]
  rw [if_pos trivial]
  rw [if_neg (by simpa using hane)]
  rw [List.reverse_reverse,
    show strtok_aux d [] b = strtok_all d b from rfl, strtok_all_single d b hb hbne]

/-- C6: declaring the composite layer `a+b` fails while a constituent is
missing; once both exist it succeeds, appending a composite layer whose
constituent list is `[index(a), index(b)]` in left-to-right order; and a
composite name carrying a `:type` suffix is an error. -/
theorem c6_composite_layer (env : Env) (config : Config) (a b ty : Str)
    (ha : (∀ c ∈ a, c ≠ '+' ∧ c ≠ ':') ∧ a ≠ [])
    (hb : (∀ c ∈ b, c ≠ '+' ∧ c ≠ ':') ∧ b ≠ [])
    (hty : (∀ c ∈ ty, c ≠ ':') ∧ ty ≠ []) :
    (config_get_layer_index config (a ++ '+' :: b) = -1 →
      config.layers.length < env.max_layers →
      (config_get_layer_index config a = -1 ∨ config_get_layer_index config b = -1) →
      config_add_layer env config (a ++ '+' :: b) = (-1, config)) ∧
    (∀ ia ib : Nat, config_get_layer_index config (a ++ '+' :: b) = -1 →
      config.layers.length < env.max_layers → 0 < env.constituents_cap →
      config_get_layer_index config a = (ia : Int) →
      config_get_layer_index config b = (ib : Int) →
      config_add_layer env config (a ++ '+' :: b) =
        (0, { config with layers := config.layers ++
          [{ name := a ++ '+' :: b, type := .ltComposite,
             constituents := [(ia : Int), (ib : Int)] }] })) ∧
    (config_get_layer_index config (a ++ '+' :: b) = -1 →
      config.layers.length < env.max_layers →
      config_add_layer env config ((a ++ '+' :: b) ++ ':' :: ty) = (-1, config)) := by
  have hnm_ne : (a ++ '+' :: b) ≠ [] := by simp
  have hnm_colon : ∀ c ∈ (a ++ '+' :: b), c ≠ ':' := by
    intro c hc
    rcases List.mem_append.1 hc with h | h
    · exact (ha.1 c h).2
    · rcases List.mem_cons.1 h with h | h
      · rw [h]; decide
      · exact (hb.1 c h).2
  have hsplit_colon : strtok_all ':' (a ++ '+' :: b) = [a ++ '+' :: b] :=
    strtok_all_single ':' _ hnm_colon hnm_ne
  have hsplit_plus : strtok_all '+' (a ++ '+' :: b) = [a, b] :=
    strtok_all_pair '+' a b (fun c hc => (ha.1 c hc).1) (fun c hc => (hb.1 c hc).1) ha.2 hb.2
  have hplus_mem : '+' ∈ (a ++ '+' :: b) := by simp
  refine ⟨?_, ?_, ?_⟩
  · intro hnm hcap hor
    have hnew : new_layer env config (a ++ '+' :: b) = none := by
      unfold new_layer
      rw [hsplit_colon]
      simp only [List.getD_cons_zero, List.get?]
      rw [if_pos hplus_mem, if_neg (by simp), hsplit_plus]
      simp only [List.foldl_cons, List.foldl_nil]
      rcases hor with h | h
      · simp [h]
      · by_cases h2 : config_get_layer_index config a < 0
        · simp [h2]
        · by_cases h3 : env.constituents_cap ≤ 0
          · simp [h2, h3]
          · simp [h2, h3, h]
    unfold config_add_layer
    rw [hsplit_colon]
    simp only [List.getD_cons_zero]
    rw [if_neg (by simp [hnm]), if_neg (by omega), hnew]
  · intro ia ib hnm hcap hccap hia hib
    have hnew : new_layer env config (a ++ '+' :: b) =
        some { name := a ++ '+' :: b, type := .ltComposite,
               constituents := [(ia : Int), (ib : Int)] } := by
      unfold new_layer
      rw [hsplit_colon]
      simp only [List.getD_cons_zero, List.get?]
      rw [if_pos hplus_mem, if_neg (by simp), hsplit_plus]
      simp only [List.foldl_cons, List.foldl_nil]
      have h1 : ¬((ia : Int) < 0) := by omega
      have h2 : ¬((ib : Int) < 0) := by omega
      have h3 : ¬(env.constituents_cap ≤ 0) := by omega
      simp [hia, hib, h1, h2, h3]
    unfold config_add_layer
    rw [hsplit_colon]
    simp only [List.getD_cons_zero]
    rw [if_neg (by simp [hnm]), if_neg (by omega), hnew]
  · intro hnm hcap
    have hsplit2 : strtok_all ':' ((a ++ '+' :: b) ++ ':' :: ty) = [a ++ '+' :: b, ty] :=
      strtok_all_pair ':' _ ty hnm_colon hty.1 hnm_ne hty.2
    have hnew : new_layer env config ((a ++ '+' :: b) ++ ':' :: ty) = none := by
      unfold new_layer
      rw [hsplit2]
      simp only [List.getD_cons_zero, List.get?]
      rw [if_pos hplus_mem, if_pos (by simp)]
    unfold config_add_layer
    rw [hsplit2]
    simp only [List.getD_cons_zero]
    rw [if_neg (by simp [hnm]), if_neg (by omega), hnew]

/-- Witness for C6 on `cfg_seed`: `foo+control` succeeds with constituents
`[2, 1]`, `foo+zzz` fails, and `foo+control:layout` fails. -/
theorem c6_composite_layer_witness :
    config_add_layer model_env cfg_seed (("foo".toList) ++ '+' :: ("zzz".toList)) =
      (-1, cfg_seed) ∧
    config_add_layer model_env cfg_seed (("foo".toList) ++ '+' :: ("control".toList)) =
      (0, { cfg_seed with layers := cfg_seed.layers ++
        [{ name := ("foo".toList) ++ '+' :: ("control".toList), type := .ltComposite,
           constituents := [2, 1] }] }) ∧
    config_add_layer model_env cfg_seed
      ((("foo".toList) ++ '+' :: ("control".toList)) ++ ':' :: ("layout".toList)) =
      (-1, cfg_seed) := by
  refine ⟨?_, ?_, ?_⟩
  · exact (c6_composite_layer model_env cfg_seed ("foo".toList) ("zzz".toList) ("x".toList)
      (by decide) (by decide) (by decide)).1 (by decide) (by decide) (Or.inr (by decide))
  · exact (c6_composite_layer model_env cfg_seed ("foo".toList) ("control".toList) ("x".toList)
      (by decide) (by decide) (by decide)).2.1 2 1 (by decide) (by decide) (by decide)
      (by decide) (by decide)
  · exact (c6_composite_layer model_env cfg_seed ("foo".toList) ("control".toList)
      ("layout".toList) (by decide) (by decide) (by decide)).2.2 (by decide) (by decide)

/-! ### C1 — descriptor classification order -/

/-- C1: descriptor classification tries, in order, the empty string (no-op),
a bare key sequence, `command(...)`, a macro expression and the action
table, with the first success winning; when everything fails the result is
the fatal "invalid key or action" error. -/
theorem c1_classification_order (env : Env) (config : Config) (s : Str) (fuel : Nat) :
    (parse_descriptor env (fuel + 1) [] config = some ({ op := .opNoop }, config)) ∧
    (∀ code mods, s ≠ [] → env.parse_key_sequence s = some (code, mods) →
      parse_descriptor env (fuel + 1) s config =
        some ({ op := .opKeyseq, arg0 := ((code % 256 : Nat) : Int),
                arg1 := ((mods % 256 : Nat) : Int) }, config)) ∧
    (∀ cmd, s ≠ [] → env.parse_key_sequence s = none → parse_command env s = .cmdOk cmd →
      config.commands.length < env.max_commands →
      parse_descriptor env (fuel + 1) s config =
        some ({ op := .opCommand, arg0 := (config.commands.length : Int) },
          { config with commands := config.commands ++ [cmd] })) ∧
    (∀ m, s ≠ [] → env.parse_key_sequence s = none → parse_command env s = .cmdNot →
      parse_macro_expression env s = .mOk m → config.macros.length < env.max_macros →
      parse_descriptor env (fuel + 1) s config =
        some ({ op := .opMacro, arg0 := (config.macros.length : Int) },
          { config with macros := config.macros ++ [m] })) ∧
    (∀ fn args nm opc tys, s ≠ [] → env.parse_key_sequence s = none →
      parse_command env s = .cmdNot → parse_macro_expression env s = .mInvalid →
      parse_fn s = some (fn, args) →
      actions.find? (fun a => a.1 = fn) = some (nm, opc, tys) →
      parse_descriptor env (fuel + 1) s config =
        (if args.length ≠ tys.length then none
         else process_args env (fun t c => parse_descriptor env fuel t c) tys args
           tys.length { op := opc } config)) ∧
    (s ≠ [] → env.parse_key_sequence s = none → parse_command env s = .cmdNot →
      parse_macro_expression env s = .mInvalid →
      (parse_fn s = none ∨ ∃ fn args, parse_fn s = some (fn, args) ∧
        actions.find? (fun a => a.1 = fn) = none) →
      parse_descriptor env (fuel + 1) s config = none) := by
  refine ⟨?_, ?_, ?_, ?_, ?_, ?_⟩
  · simp [parse_descriptor, parse_descriptor_body]
  · intro code mods hs hp
    simp only [parse_descriptor]
    unfold parse_descriptor_body
    rw [if_neg hs, hp]
  · intro cmd hs hp hc hcap
    simp only [parse_descriptor]
    unfold parse_descriptor_body
    rw [if_neg hs]
    simp only [hp, hc]
    rw [if_neg (by omega)]
  · intro m hs hp hc hm hcap
    simp only [parse_descriptor]
    unfold parse_descriptor_body
    rw [if_neg hs]
    simp only [hp, hc, hm]
    rw [if_neg (by omega)]
  · intro fn args nm opc tys hs hp hc hm hfn hfind
    simp only [parse_descriptor]
    unfold parse_descriptor_body
    rw [if_neg hs]
    simp only [hp, hc, hm, hfn, hfind]
  · intro hs hp hc hm hor
    simp only [parse_descriptor]
    unfold parse_descriptor_body
    rw [if_neg hs]
    rcases hor with hfn | ⟨fn, args, hfn, hfind⟩
    · simp only [hp, hc, hm, hfn]
    · simp only [hp, hc, hm, hfn, hfind]

/-- Witness for C1 at the model environment on `cfg_seed`: one input per
classification branch. -/
theorem c1_classification_order_witness :
    parse_descriptor model_env 1 [] cfg_seed = some ({ op := .opNoop }, cfg_seed) ∧
    parse_descriptor model_env 1 ("b".toList) cfg_seed =
      some ({ op := .opKeyseq, arg0 := ((48 % 256 : Nat) : Int),
              arg1 := ((0 % 256 : Nat) : Int) }, cfg_seed) ∧
    parse_descriptor model_env 1 ("command(ls)".toList) cfg_seed =
      some ({ op := .opCommand, arg0 := (cfg_seed.commands.length : Int) },
        { cfg_seed with commands := cfg_seed.commands ++ [("ls".toList)] }) ∧
    parse_descriptor model_env 1 ("macro(200ms)".toList) cfg_seed =
      some ({ op := .opMacro, arg0 := (cfg_seed.macros.length : Int) },
        { cfg_seed with macros := cfg_seed.macros ++ [[⟨.eTimeout, 200⟩]] }) ∧
    parse_descriptor model_env 1 ("clear()".toList) cfg_seed =
      (if ([] : List Str).length ≠ ([] : List ArgType).length then none
       else process_args model_env (fun t c => parse_descriptor model_env 0 t c) [] []
         ([] : List ArgType).length { op := .opClear } cfg_seed) ∧
    parse_descriptor model_env 1 ("!!!".toList) cfg_seed = none := by
  refine ⟨(c1_classification_order model_env cfg_seed [] 0).1, ?_, ?_, ?_, ?_, ?_⟩
  · exact (c1_classification_order model_env cfg_seed ("b".toList) 0).2.1 48 0
      (by decide) (by decide)
  · exact (c1_classification_order model_env cfg_seed ("command(ls)".toList) 0).2.2.1
      ("ls".toList) (by decide) (by decide) (by decide) (by decide)
  · exact (c1_classification_order model_env cfg_seed ("macro(200ms)".toList) 0).2.2.2.1
      [⟨.eTimeout, 200⟩] (by decide) (by decide) (by decide) (by decide) (by decide)
  · exact (c1_classification_order model_env cfg_seed ("clear()".toList) 0).2.2.2.2.1
      ("clear".toList) [] ("clear".toList) .opClear [] (by decide) (by decide) (by decide)
      (by decide) (by decide) (by decide)
  · exact (c1_classification_order model_env cfg_seed ("!!!".toList) 0).2.2.2.2.2
      (by decide) (by decide) (by decide) (by decide) (Or.inl (by decide))

/-! ### C5 — Layer-typed argument resolution -/

/-- Characters satisfying the predicate pass through `takeWhile`. -/
theorem takeWhile_append_all (p : Char → Bool) : ∀ (a b : Str), (∀ c ∈ a, p c = true) →
    (a ++ b).takeWhile p = a ++ b.takeWhile p := by
  intro a
  induction a with
  | nil => intro b _; simp
  | cons c a' ih =>
    intro b h
    simp only [List.cons_append, List.takeWhile_cons, h c (by simp), if_true]
    rw [ih b (fun x hx => h x (List.mem_cons_of_mem _ hx))]

/-- Characters satisfying the predicate are consumed by `dropWhile`. -/
theorem dropWhile_append_all (p : Char → Bool) : ∀ (a b : Str), (∀ c ∈ a, p c = true) →
    (a ++ b).dropWhile p = b.dropWhile p := by
  intro a
  induction a with
  | nil => intro b _; simp
  | cons c a' ih =>
    intro b h
    simp only [List.cons_append, List.dropWhile_cons, h c (by simp)]
    exact ih b (fun x hx => h x (List.mem_cons_of_mem _ hx))

/-- Space skipping is the identity on space-free text. -/
theorem skip_spaces_all (s : Str) (h : ∀ c ∈ s, c ≠ ' ') : skip_spaces s = s := by
  unfold skip_spaces
  cases s with
  | nil => rfl
  | cons c cs =>
    rw [List.dropWhile_cons, if_neg (by simp [h c (by simp)])]

/-- The argument scanner copies characters it does not treat specially into
the accumulator. -/
theorem scan_arg_clean : ∀ (g rest : Str) (plvl : Nat) (acc : Str),
    (∀ c ∈ g, c ≠ '\\' ∧ c ≠ '(' ∧ c ≠ ')' ∧ c ≠ ',') →
    scan_arg (g ++ rest) plvl acc = scan_arg rest plvl (acc ++ g) := by
  intro g
  induction g with
  | nil => intro rest plvl acc _; simp
  | cons c g' ih =>
    intro rest plvl acc h
    obtain ⟨h1, h2, h3, h4⟩ := h c (by simp)
    rw [List.cons_append,
      scan_arg.eq_4 plvl acc c (g' ++ rest) (fun hc _ => absurd hc h1)
        (fun _ _ hc _ => absurd hc h1),
      if_neg h2, if_neg h3, if_neg h4,
      ih rest plvl (acc ++ [c]) (fun x hx => h x (List.mem_cons_of_mem _ hx))]
    simp [List.append_assoc]

/-- Unfolding step of the argument loop, closing at `)`. -/
theorem parse_args_step_close (fuel : Nat) (cs : Str) (acc : List Str) (arg rest : Str)
    (hf : fuel ≠ 0) (hscan : scan_arg cs 0 [] = some (arg, ')', rest))
    (hassert : ¬(arg ≠ [] ∧ MAX_DESCRIPTOR_ARGS ≤ acc.length)) :
    parse_args fuel cs acc = some (if arg = [] then acc else acc ++ [arg]) := by
  obtain ⟨n, rfl⟩ := Nat.exists_eq_succ_of_ne_zero hf
  simp only [parse_args, hscan]
  rw [if_neg hassert, if_pos trivial]

/-- Unfolding step of the argument loop, continuing past a comma. -/
theorem parse_args_step_comma (fuel : Nat) (cs : Str) (acc : List Str) (arg rest : Str)
    (hf : fuel ≠ 0) (hscan : scan_arg cs 0 [] = some (arg, ',', rest))
    (hassert : ¬(arg ≠ [] ∧ MAX_DESCRIPTOR_ARGS ≤ acc.length)) :
    parse_args fuel cs acc =
      parse_args (fuel - 1) (skip_spaces rest) (if arg = [] then acc else acc ++ [arg]) := by
  obtain ⟨n, rfl⟩ := Nat.exists_eq_succ_of_ne_zero hf
  simp only [parse_args, hscan]
  rw [if_neg hassert, if_neg (by decide), Nat.succ_sub_one]

/-- A one-argument call `op(g)` parses to the name and the single
argument. -/
theorem parse_fn_call1 (op g : Str) (hop : ∀ c ∈ op, c ≠ '(') (hg : clean_arg g) :
    parse_fn ((op ++ ['(']) ++ (g ++ [')'])) = some (op, [g]) := by
  have hcleang : ∀ c ∈ g, c ≠ '\\' ∧ c ≠ '(' ∧ c ≠ ')' ∧ c ≠ ',' := fun c hc =>
    ⟨(hg.2 c hc).1, (hg.2 c hc).2.1, (hg.2 c hc).2.2.1, (hg.2 c hc).2.2.2.1⟩
  have hassoc : ((op ++ ['(']) ++ (g ++ [')'])) = op ++ ('(' :: (g ++ [')'])) := by simp
  have hopb : ∀ c ∈ op, (decide (c ≠ '(')) = true := fun c hc => by simp [hop c hc]
  unfold parse_fn
  rw [hassoc, takeWhile_append_all _ op _ hopb, dropWhile_append_all _ op _ hopb]
  rw [List.takeWhile_cons, List.dropWhile_cons]
  rw [if_neg (by simp), if_neg (by simp), List.append_nil]
  simp only
  rw [skip_spaces_all _ (fun c hc => by
    rcases List.mem_append.1 hc with h | h
    · exact (hg.2 c h).2.2.2.2
    · simp at h; rw [h]; decide)]
  rw [parse_args_step_close ((g ++ [')']).length + 1) _ [] g []
    (by simp) (by rw [scan_arg_clean g [')'] 0 [] hcleang]; rfl)
    (by simp [MAX_DESCRIPTOR_ARGS])]
  rw [if_neg hg.1]
  simp

/-- A two-argument call `op(g,macro(200ms))` parses to the name and both
arguments. -/
theorem parse_fn_call2m (op g : Str) (hop : ∀ c ∈ op, c ≠ '(') (hg : clean_arg g) :
    parse_fn ((op ++ ['(']) ++ (g ++ (',' :: ("macro(200ms))".toList)))) =
      some (op, [g, ("macro(200ms)".toList)]) := by
  have hcleang : ∀ c ∈ g, c ≠ '\\' ∧ c ≠ '(' ∧ c ≠ ')' ∧ c ≠ ',' := fun c hc =>
    ⟨(hg.2 c hc).1, (hg.2 c hc).2.1, (hg.2 c hc).2.2.1, (hg.2 c hc).2.2.2.1⟩
  have hassoc : ((op ++ ['(']) ++ (g ++ (',' :: ("macro(200ms))".toList)))) =
      op ++ ('(' :: (g ++ (',' :: ("macro(200ms))".toList)))) := by simp
  have hopb : ∀ c ∈ op, (decide (c ≠ '(')) = true := fun c hc => by simp [hop c hc]
  unfold parse_fn
  rw [hassoc, takeWhile_append_all _ op _ hopb, dropWhile_append_all _ op _ hopb]
  rw [List.takeWhile_cons, List.dropWhile_cons]
  rw [if_neg (by simp), if_neg (by simp), List.append_nil]
  simp only
  rw [skip_spaces_all _ (fun c hc => by
    rcases List.mem_append.1 hc with h | h
    · exact (hg.2 c h).2.2.2.2
    · rcases List.mem_cons.1 h with h | h
      · rw [h]; decide
      · exact (show ∀ x ∈ ("macro(200ms))".toList), x ≠ ' ' from by decide) c h)]
  rw [parse_args_step_comma _ _ [] g ("macro(200ms))".toList)
    (by simp) (by rw [scan_arg_clean g (',' :: ("macro(200ms))".toList)) 0 [] hcleang]; rfl)
    (by simp [MAX_DESCRIPTOR_ARGS])]
  rw [if_neg hg.1]
  rw [show skip_spaces ("macro(200ms))".toList) = ("macro(200ms))".toList) from rfl]
  rw [parse_args_step_close _ _ ([] ++ [g]) ("macro(200ms)".toList) []
    (by simp) (by rfl) (by simp [MAX_DESCRIPTOR_ARGS])]
  simp

/-- A two-argument call `op(g,b)` parses to the name and both arguments. -/
theorem parse_fn_call2b (op g : Str) (hop : ∀ c ∈ op, c ≠ '(') (hg : clean_arg g) :
    parse_fn ((op ++ ['(']) ++ (g ++ (',' :: ("b)".toList)))) =
      some (op, [g, ("b".toList)]) := by
  have hcleang : ∀ c ∈ g, c ≠ '\\' ∧ c ≠ '(' ∧ c ≠ ')' ∧ c ≠ ',' := fun c hc =>
    ⟨(hg.2 c hc).1, (hg.2 c hc).2.1, (hg.2 c hc).2.2.1, (hg.2 c hc).2.2.2.1⟩
  have hassoc : ((op ++ ['(']) ++ (g ++ (',' :: ("b)".toList)))) =
      op ++ ('(' :: (g ++ (',' :: ("b)".toList)))) := by simp
  have hopb : ∀ c ∈ op, (decide (c ≠ '(')) = true := fun c hc => by simp [hop c hc]
  unfold parse_fn
  rw [hassoc, takeWhile_append_all _ op _ hopb, dropWhile_append_all _ op _ hopb]
  rw [List.takeWhile_cons, List.dropWhile_cons]
  rw [if_neg (by simp), if_neg (by simp), List.append_nil]
  simp only
  rw [skip_spaces_all _ (fun c hc => by
    rcases List.mem_append.1 hc with h | h
    · exact (hg.2 c h).2.2.2.2
    · rcases List.mem_cons.1 h with h | h
      · rw [h]; decide
      · exact (show ∀ x ∈ ("b)".toList), x ≠ ' ' from by decide) c h)]
  rw [parse_args_step_comma _ _ [] g ("b)".toList)
    (by simp) (by rw [scan_arg_clean g (',' :: ("b)".toList)) 0 [] hcleang]; rfl)
    (by simp [MAX_DESCRIPTOR_ARGS])]
  rw [if_neg hg.1]
  rw [show skip_spaces ("b)".toList) = ("b)".toList) from rfl]
  rw [parse_args_step_close _ _ ([] ++ [g]) ("b".toList) []
    (by simp) (by rfl) (by simp [MAX_DESCRIPTOR_ARGS])]
  simp

/-- Lists starting with different characters are not prefixes of one
another. -/
theorem isPrefixOf_cons_ne (a b : Char) (p t : Str) (h : a ≠ b) :
    ((a :: p).isPrefixOf (b :: t)) = false := by
  apply Bool.eq_false_iff.2
  intro hc
  rw [List.isPrefixOf_iff_prefix] at hc
  exact h (List.cons_prefix_cons.1 hc).1

/-- Text that does not start with `macro(` is not a wrapped macro. -/
theorem macro_wrapped_false_of (s : Str) (h : ("macro(".toList).isPrefixOf s = false) :
    macro_wrapped s = false := by
  unfold macro_wrapped
  rw [h, Bool.false_and]

/-- The argument loop succeeds immediately once every argument is done. -/
theorem process_args_zero (env : Env) (pd : Str → Config → Option (Descriptor × Config))
    (tys : List ArgType) (args : List Str) (d : Descriptor) (config : Config) :
    process_args env pd tys args 0 d config = some (d, config) := by
  simp [process_args]

/-- A Layer argument reading `main` is fatal. -/
theorem process_args_layer_main (env : Env) (pd : Str → Config → Option (Descriptor × Config))
    (tys : List ArgType) (args : List Str) (j : Nat) (d : Descriptor) (config : Config)
    (hty : tys.getD j .aEmpty = .aLayer) (ha : args.getD j [] = "main".toList) :
    process_args env pd tys args (j + 1) d config = none := by
  simp only [process_args, hty, ha]
  rw [if_pos trivial]

/-- A Layer argument naming no layer, or naming a Layout layer, is fatal. -/
theorem process_args_layer_err (env : Env) (pd : Str → Config → Option (Descriptor × Config))
    (tys : List ArgType) (args : List Str) (j : Nat) (d : Descriptor) (config : Config)
    (x : Str) (hty : tys.getD j .aEmpty = .aLayer) (ha : args.getD j [] = x)
    (hmain : x ≠ "main".toList)
    (hbad : config_get_layer_index config x = -1 ∨
      (config.layers.getD (config_get_layer_index config x).toNat default).type = .ltLayout) :
    process_args env pd tys args (j + 1) d config = none := by
  simp only [process_args, hty, ha]
  rw [if_neg hmain, if_pos hbad]

/-- A Layer argument naming an existing non-Layout layer other than `main`
resolves to that layer's index. -/
theorem process_args_layer_ok (env : Env) (pd : Str → Config → Option (Descriptor × Config))
    (tys : List ArgType) (args : List Str) (j : Nat) (d : Descriptor) (config : Config)
    (x : Str) (i : Nat) (hty : tys.getD j .aEmpty = .aLayer) (ha : args.getD j [] = x)
    (hmain : x ≠ "main".toList) (hidx : config_get_layer_index config x = (i : Int))
    (htype : (config.layers.getD i default).type ≠ .ltLayout) :
    process_args env pd tys args (j + 1) d config =
      process_args env pd tys args j (d.setArg j (i : Int)) config := by
  simp only [process_args, hty, ha, hidx]
  rw [if_neg hmain, if_neg ?hcond]
  case hcond =>
    rintro (hc | hc)
    · omega
    · rw [show ((i : Int)).toNat = i from by simp] at hc
      exact htype hc

/-- A Macro argument that compiles is appended to the macro pool and the
argument becomes its index. -/
theorem process_args_macro_ok (env : Env) (pd : Str → Config → Option (Descriptor × Config))
    (tys : List ArgType) (args : List Str) (j : Nat) (d : Descriptor) (config : Config)
    (x : Str) (m : List MEntry) (hty : tys.getD j .aEmpty = .aMacro)
    (ha : args.getD j [] = x) (hcap : config.macros.length < env.max_macros)
    (hm : parse_macro_expression env x = .mOk m) :
    process_args env pd tys args (j + 1) d config =
      process_args env pd tys args j (d.setArg j (config.macros.length : Int))
        { config with macros := config.macros ++ [m] } := by
  simp only [process_args, hty, ha, hm]
  rw [if_neg (by omega)]

/-- A Descriptor argument is compiled recursively, appended to the
descriptor pool, and the argument becomes the new index. -/
theorem process_args_descriptor_ok (env : Env)
    (pd : Str → Config → Option (Descriptor × Config))
    (tys : List ArgType) (args : List Str) (j : Nat) (d : Descriptor) (config : Config)
    (x : Str) (desc : Descriptor) (config1 : Config)
    (hty : tys.getD j .aEmpty = .aDescriptor) (ha : args.getD j [] = x)
    (hpd : pd x config = some (desc, config1))
    (hcap : config1.descriptors.length < env.max_descriptors) :
    process_args env pd tys args (j + 1) d config =
      process_args env pd tys args j (d.setArg j (config1.descriptors.length : Int))
        { config1 with descriptors := config1.descriptors ++ [desc] } := by
  simp only [process_args, hty, ha, hpd]
  rw [if_neg (by omega)]

/-- When the first four classifications fail and the name matches the action
table, `parse_descriptor` is the arity check followed by the argument
loop. -/
theorem parse_descriptor_fn_eq (env : Env) (config : Config) (s : Str) (fuel : Nat)
    (fn : Str) (args : List Str) (nm : Str) (opc : Op) (tys : List ArgType)
    (hs : s ≠ []) (hp : env.parse_key_sequence s = none)
    (hc : parse_command env s = .cmdNot) (hm : parse_macro_expression env s = .mInvalid)
    (hfn : parse_fn s = some (fn, args))
    (hfind : actions.find? (fun a => a.1 = fn) = some (nm, opc, tys)) :
    parse_descriptor env (fuel + 1) s config =
      (if args.length ≠ tys.length then none
       else process_args env (fun t c => parse_descriptor env fuel t c) tys args
         tys.length { op := opc } config) := by
  simp only [parse_descriptor]
  unfold parse_descriptor_body
  rw [if_neg hs]
  simp only [hp, hc, hm, hfn, hfind]

/-- C5: for each of the seven toggle-class operations, the Layer-typed
argument must name an existing non-Layout layer other than `main` — the
argument `main`, a Layout layer or an unknown name is fatal — and a valid
name resolves to that layer's index (stored in argument slot 0). -/
theorem c5_layer_argument_resolution (env : Env) (config : Config) (fuel : Nat)
    (g l bad : Str) (gi li cb mb : Nat)
    (hg : clean_arg g) (hlc : clean_arg l) (hbc : clean_arg bad)
    (hgm : g ≠ "main".toList) (hlm : l ≠ "main".toList) (hbm : bad ≠ "main".toList)
    (hgi : config_get_layer_index config g = (gi : Int))
    (hgtype : (config.layers.getD gi default).type ≠ .ltLayout)
    (hli : config_get_layer_index config l = (li : Int))
    (hltype : (config.layers.getD li default).type = .ltLayout)
    (hbi : config_get_layer_index config bad = -1)
    (hpks : ∀ e ∈ layer_arg_exprs ("main".toList) ++ layer_arg_exprs g ++
      layer_arg_exprs l ++ layer_arg_exprs bad, env.parse_key_sequence e = none)
    (hesc : env.str_escape ("200ms".toList) = "200ms".toList)
    (hpks200 : env.parse_key_sequence ("200ms".toList) = none)
    (hpksb : env.parse_key_sequence ("b".toList) = some (cb, mb))
    (hmcap : 1 ≤ env.macro_cap)
    (hmacs : config.macros.length < env.max_macros)
    (hdescs : config.descriptors.length < env.max_descriptors) :
    (∀ e ∈ layer_arg_exprs ("main".toList),
      parse_descriptor env (fuel + 2) e config = none) ∧
    (∀ e ∈ layer_arg_exprs l, parse_descriptor env (fuel + 2) e config = none) ∧
    (∀ e ∈ layer_arg_exprs bad, parse_descriptor env (fuel + 2) e config = none) ∧
    (∀ e ∈ layer_arg_exprs g, ∃ d config2,
      parse_descriptor env (fuel + 2) e config = some (d, config2) ∧
        d.arg0 = (gi : Int)) := by
  have hmaincl : clean_arg ("main".toList) := by constructor <;> decide
  have hfind_swap : actions.find? (fun a => a.1 = ("swap".toList)) =
      some (("swap".toList), Op.opSwap, [ArgType.aLayer]) := by decide
  have hfind_swap2 : actions.find? (fun a => a.1 = ("swap2".toList)) =
      some (("swap2".toList), Op.opSwap2, [ArgType.aLayer, ArgType.aMacro]) := by decide
  have hfind_oneshot : actions.find? (fun a => a.1 = ("oneshot".toList)) =
      some (("oneshot".toList), Op.opOneshot, [ArgType.aLayer]) := by decide
  have hfind_toggle : actions.find? (fun a => a.1 = ("toggle".toList)) =
      some (("toggle".toList), Op.opToggle, [ArgType.aLayer]) := by decide
  have hfind_toggle2 : actions.find? (fun a => a.1 = ("toggle2".toList)) =
      some (("toggle2".toList), Op.opToggle2, [ArgType.aLayer, ArgType.aMacro]) := by decide
  have hfind_layer : actions.find? (fun a => a.1 = ("layer".toList)) =
      some (("layer".toList), Op.opLayer, [ArgType.aLayer]) := by decide
  have hfind_overload : actions.find? (fun a => a.1 = ("overload".toList)) =
      some (("overload".toList), Op.opOverload, [ArgType.aLayer, ArgType.aDescriptor]) := by
    decide
  have hm200 := macro_200ms_ok env hesc hpks200 hmcap
  have hbdesc : parse_descriptor env (fuel + 1) ("b".toList) config =
      some ({ op := .opKeyseq, arg0 := ((cb % 256 : Nat) : Int),
              arg1 := ((mb % 256 : Nat) : Int) }, config) := by
    simp only [parse_descriptor]
    unfold parse_descriptor_body
    rw [if_neg (by decide), hpksb]
  have hgen_fatal : ∀ (x : Str), clean_arg x →
      (∀ e ∈ layer_arg_exprs x, env.parse_key_sequence e = none) →
      (x = "main".toList ∨ (x ≠ "main".toList ∧
        (config_get_layer_index config x = -1 ∨
          (config.layers.getD (config_get_layer_index config x).toNat default).type =
            .ltLayout))) →
      ∀ e ∈ layer_arg_exprs x, parse_descriptor env (fuel + 2) e config = none := by
    intro x hx hpx hcase e he
    simp only [layer_arg_exprs, List.mem_cons, List.not_mem_nil, or_false] at he
    rcases he with rfl | rfl | rfl | rfl | rfl | rfl | rfl
    · have hp := hpx (("swap".toList ++ ['(']) ++ (x ++ [')'])) (by simp [layer_arg_exprs])
      rw [show fuel + 2 = (fuel + 1) + 1 from rfl,
        parse_descriptor_fn_eq env config _ (fuel + 1) ("swap".toList) [x] _ _ _
          (by simp) hp (parse_command_not_of env _ (isPrefixOf_cons_ne _ _ _ _ (by decide)))
          (macro_invalid_of env _
            (macro_wrapped_false_of _ (isPrefixOf_cons_ne _ _ _ _ (by decide))) hp
            (by simp [List.length_append]))
          (parse_fn_call1 _ _ (by decide) hx) hfind_swap,
        if_neg (by simp)]
      rcases hcase with hmain | ⟨hxne, hbad⟩
      · exact process_args_layer_main env _ _ _ 0 _ config (by rfl) (by simp [hmain])
      · exact process_args_layer_err env _ _ _ 0 _ config x (by rfl) (by rfl) hxne hbad
    · have hp := hpx (("swap2".toList ++ ['(']) ++ (x ++ (',' :: ("macro(200ms))".toList)))) (by simp [layer_arg_exprs])
      rw [show fuel + 2 = (fuel + 1) + 1 from rfl,
        parse_descriptor_fn_eq env config _ (fuel + 1) ("swap2".toList) [x, ("macro(200ms)".toList)] _ _ _
          (by simp) hp (parse_command_not_of env _ (isPrefixOf_cons_ne _ _ _ _ (by decide)))
          (macro_invalid_of env _
            (macro_wrapped_false_of _ (isPrefixOf_cons_ne _ _ _ _ (by decide))) hp
            (by simp [List.length_append]))
          (parse_fn_call2m _ _ (by decide) hx) hfind_swap2,
        if_neg (by simp)]
      have hstep := process_args_macro_ok env
        (fun t c => parse_descriptor env (fuel + 1) t c)
        [ArgType.aLayer, ArgType.aMacro] [x, ("macro(200ms)".toList)] 1
        { op := Op.opSwap2 } config ("macro(200ms)".toList) [⟨.eTimeout, 200⟩]
        rfl rfl hmacs hm200
      rcases hcase with hmain | ⟨hxne, hbad⟩
      · exact hstep.trans
          (process_args_layer_main env _ _ _ 0 _ _ (by rfl) (by simp [hmain]))
      · exact hstep.trans
          (process_args_layer_err env _ _ _ 0 _ _ x (by rfl) (by rfl) hxne hbad)
    · have hp := hpx (("oneshot".toList ++ ['(']) ++ (x ++ [')'])) (by simp [layer_arg_exprs])
      rw [show fuel + 2 = (fuel + 1) + 1 from rfl,
        parse_descriptor_fn_eq env config _ (fuel + 1) ("oneshot".toList) [x] _ _ _
          (by simp) hp (parse_command_not_of env _ (isPrefixOf_cons_ne _ _ _ _ (by decide)))
          (macro_invalid_of env _
            (macro_wrapped_false_of _ (isPrefixOf_cons_ne _ _ _ _ (by decide))) hp
            (by simp [List.length_append]))
          (parse_fn_call1 _ _ (by decide) hx) hfind_oneshot,
        if_neg (by simp)]
      rcases hcase with hmain | ⟨hxne, hbad⟩
      · exact process_args_layer_main env _ _ _ 0 _ config (by rfl) (by simp [hmain])
      · exact process_args_layer_err env _ _ _ 0 _ config x (by rfl) (by rfl) hxne hbad
    · have hp := hpx (("toggle".toList ++ ['(']) ++ (x ++ [')'])) (by simp [layer_arg_exprs])
      rw [show fuel + 2 = (fuel + 1) + 1 from rfl,
        parse_descriptor_fn_eq env config _ (fuel + 1) ("toggle".toList) [x] _ _ _
          (by simp) hp (parse_command_not_of env _ (isPrefixOf_cons_ne _ _ _ _ (by decide)))
          (macro_invalid_of env _
            (macro_wrapped_false_of _ (isPrefixOf_cons_ne _ _ _ _ (by decide))) hp
            (by simp [List.length_append]))
          (parse_fn_call1 _ _ (by decide) hx) hfind_toggle,
        if_neg (by simp)]
      rcases hcase with hmain | ⟨hxne, hbad⟩
      · exact process_args_layer_main env _ _ _ 0 _ config (by rfl) (by simp [hmain])
      · exact process_args_layer_err env _ _ _ 0 _ config x (by rfl) (by rfl) hxne hbad
    · have hp := hpx (("toggle2".toList ++ ['(']) ++ (x ++ (',' :: ("macro(200ms))".toList)))) (by simp [layer_arg_exprs])
      rw [show fuel + 2 = (fuel + 1) + 1 from rfl,
        parse_descriptor_fn_eq env config _ (fuel + 1) ("toggle2".toList) [x, ("macro(200ms)".toList)] _ _ _
          (by simp) hp (parse_command_not_of env _ (isPrefixOf_cons_ne _ _ _ _ (by decide)))
          (macro_invalid_of env _
            (macro_wrapped_false_of _ (isPrefixOf_cons_ne _ _ _ _ (by decide))) hp
            (by simp [List.length_append]))
          (parse_fn_call2m _ _ (by decide) hx) hfind_toggle2,
        if_neg (by simp)]
      have hstep := process_args_macro_ok env
        (fun t c => parse_descriptor env (fuel + 1) t c)
        [ArgType.aLayer, ArgType.aMacro] [x, ("macro(200ms)".toList)] 1
        { op := Op.opToggle2 } config ("macro(200ms)".toList) [⟨.eTimeout, 200⟩]
        rfl rfl hmacs hm200
      rcases hcase with hmain | ⟨hxne, hbad⟩
      · exact hstep.trans
          (process_args_layer_main env _ _ _ 0 _ _ (by rfl) (by simp [hmain]))
      · exact hstep.trans
          (process_args_layer_err env _ _ _ 0 _ _ x (by rfl) (by rfl) hxne hbad)
    · have hp := hpx (("layer".toList ++ ['(']) ++ (x ++ [')'])) (by simp [layer_arg_exprs])
      rw [show fuel + 2 = (fuel + 1) + 1 from rfl,
        parse_descriptor_fn_eq env config _ (fuel + 1) ("layer".toList) [x] _ _ _
          (by simp) hp (parse_command_not_of env _ (isPrefixOf_cons_ne _ _ _ _ (by decide)))
          (macro_invalid_of env _
            (macro_wrapped_false_of _ (isPrefixOf_cons_ne _ _ _ _ (by decide))) hp
            (by simp [List.length_append]))
          (parse_fn_call1 _ _ (by decide) hx) hfind_layer,
        if_neg (by simp)]
      rcases hcase with hmain | ⟨hxne, hbad⟩
      · exact process_args_layer_main env _ _ _ 0 _ config (by rfl) (by simp [hmain])
      · exact process_args_layer_err env _ _ _ 0 _ config x (by rfl) (by rfl) hxne hbad
    · have hp := hpx (("overload".toList ++ ['(']) ++ (x ++ (',' :: ("b)".toList)))) (by simp [layer_arg_exprs])
      rw [show fuel + 2 = (fuel + 1) + 1 from rfl,
        parse_descriptor_fn_eq env config _ (fuel + 1) ("overload".toList) [x, ("b".toList)] _ _ _
          (by simp) hp (parse_command_not_of env _ (isPrefixOf_cons_ne _ _ _ _ (by decide)))
          (macro_invalid_of env _
            (macro_wrapped_false_of _ (isPrefixOf_cons_ne _ _ _ _ (by decide))) hp
            (by simp [List.length_append]))
          (parse_fn_call2b _ _ (by decide) hx) hfind_overload,
        if_neg (by simp)]
      have hstep := process_args_descriptor_ok env
        (fun t c => parse_descriptor env (fuel + 1) t c)
        [ArgType.aLayer, ArgType.aDescriptor] [x, ("b".toList)] 1
        { op := Op.opOverload } config ("b".toList)
        { op := Op.opKeyseq, arg0 := ((cb % 256 : Nat) : Int),
          arg1 := ((mb % 256 : Nat) : Int) } config rfl rfl hbdesc hdescs
      rcases hcase with hmain | ⟨hxne, hbad⟩
      · exact hstep.trans
          (process_args_layer_main env _ _ _ 0 _ _ (by rfl) (by simp [hmain]))
      · exact hstep.trans
          (process_args_layer_err env _ _ _ 0 _ _ x (by rfl) (by rfl) hxne hbad)
  have hgen_ok : ∀ e ∈ layer_arg_exprs g, ∃ d config2,
      parse_descriptor env (fuel + 2) e config = some (d, config2) ∧
        d.arg0 = (gi : Int) := by
    intro e he
    have hpx : ∀ e2 ∈ layer_arg_exprs g, env.parse_key_sequence e2 = none := fun e2 he2 =>
      hpks e2 (List.mem_append_left _ (List.mem_append_left _ (List.mem_append_right _ he2)))
    simp only [layer_arg_exprs, List.mem_cons, List.not_mem_nil, or_false] at he
    rcases he with rfl | rfl | rfl | rfl | rfl | rfl | rfl
    · have hp := hpx (("swap".toList ++ ['(']) ++ (g ++ [')'])) (by simp [layer_arg_exprs])
      have heq := ((parse_descriptor_fn_eq env config _ (fuel + 1) ("swap".toList) [g] _ _ _
          (by simp) hp (parse_command_not_of env _ (isPrefixOf_cons_ne _ _ _ _ (by decide)))
          (macro_invalid_of env _
            (macro_wrapped_false_of _ (isPrefixOf_cons_ne _ _ _ _ (by decide))) hp
            (by simp [List.length_append]))
          (parse_fn_call1 _ _ (by decide) hg) hfind_swap).trans
        (if_neg (by simp))).trans
        ((process_args_layer_ok env
            (fun t c => parse_descriptor env (fuel + 1) t c)
            [ArgType.aLayer] [g] 0 { op := Op.opSwap } config g gi
            rfl rfl hgm hgi hgtype).trans (process_args_zero env _ _ _ _ _))
      exact ⟨_, _, heq, rfl⟩
    · have hp := hpx (("swap2".toList ++ ['(']) ++ (g ++ (',' :: ("macro(200ms))".toList)))) (by simp [layer_arg_exprs])
      have heq := ((parse_descriptor_fn_eq env config _ (fuel + 1) ("swap2".toList) [g, ("macro(200ms)".toList)] _ _ _
          (by simp) hp (parse_command_not_of env _ (isPrefixOf_cons_ne _ _ _ _ (by decide)))
          (macro_invalid_of env _
            (macro_wrapped_false_of _ (isPrefixOf_cons_ne _ _ _ _ (by decide))) hp
            (by simp [List.length_append]))
          (parse_fn_call2m _ _ (by decide) hg) hfind_swap2).trans
        (if_neg (by simp))).trans
        ((process_args_macro_ok env
            (fun t c => parse_descriptor env (fuel + 1) t c)
            [ArgType.aLayer, ArgType.aMacro] [g, ("macro(200ms)".toList)] 1
            { op := Op.opSwap2 } config ("macro(200ms)".toList) [⟨.eTimeout, 200⟩]
            rfl rfl hmacs hm200).trans
          ((process_args_layer_ok env _ [ArgType.aLayer, ArgType.aMacro]
            [g, ("macro(200ms)".toList)] 0 _
            { config with macros := config.macros ++ [[⟨.eTimeout, 200⟩]] } g gi rfl rfl
            hgm hgi hgtype).trans (process_args_zero env _ _ _ _ _)))
      exact ⟨_, _, heq, rfl⟩
    · have hp := hpx (("oneshot".toList ++ ['(']) ++ (g ++ [')'])) (by simp [layer_arg_exprs])
      have heq := ((parse_descriptor_fn_eq env config _ (fuel + 1) ("oneshot".toList) [g] _ _ _
          (by simp) hp (parse_command_not_of env _ (isPrefixOf_cons_ne _ _ _ _ (by decide)))
          (macro_invalid_of env _
            (macro_wrapped_false_of _ (isPrefixOf_cons_ne _ _ _ _ (by decide))) hp
            (by simp [List.length_append]))
          (parse_fn_call1 _ _ (by decide) hg) hfind_oneshot).trans
        (if_neg (by simp))).trans
        ((process_args_layer_ok env
            (fun t c => parse_descriptor env (fuel + 1) t c)
            [ArgType.aLayer] [g] 0 { op := Op.opOneshot } config g gi
            rfl rfl hgm hgi hgtype).trans (process_args_zero env _ _ _ _ _))
      exact ⟨_, _, heq, rfl⟩
    · have hp := hpx (("toggle".toList ++ ['(']) ++ (g ++ [')'])) (by simp [layer_arg_exprs])
      have heq := ((parse_descriptor_fn_eq env config _ (fuel + 1) ("toggle".toList) [g] _ _ _
          (by simp) hp (parse_command_not_of env _ (isPrefixOf_cons_ne _ _ _ _ (by decide)))
          (macro_invalid_of env _
            (macro_wrapped_false_of _ (isPrefixOf_cons_ne _ _ _ _ (by decide))) hp
            (by simp [List.length_append]))
          (parse_fn_call1 _ _ (by decide) hg) hfind_toggle).trans
        (if_neg (by simp))).trans
        ((process_args_layer_ok env
            (fun t c => parse_descriptor env (fuel + 1) t c)
            [ArgType.aLayer] [g] 0 { op := Op.opToggle } config g gi
            rfl rfl hgm hgi hgtype).trans (process_args_zero env _ _ _ _ _))
      exact ⟨_, _, heq, rfl⟩
    · have hp := hpx (("toggle2".toList ++ ['(']) ++ (g ++ (',' :: ("macro(200ms))".toList)))) (by simp [layer_arg_exprs])
      have heq := ((parse_descriptor_fn_eq env config _ (fuel + 1) ("toggle2".toList) [g, ("macro(200ms)".toList)] _ _ _
          (by simp) hp (parse_command_not_of env _ (isPrefixOf_cons_ne _ _ _ _ (by decide)))
          (macro_invalid_of env _
            (macro_wrapped_false_of _ (isPrefixOf_cons_ne _ _ _ _ (by decide))) hp
            (by simp [List.length_append]))
          (parse_fn_call2m _ _ (by decide) hg) hfind_toggle2).trans
        (if_neg (by simp))).trans
        ((process_args_macro_ok env
            (fun t c => parse_descriptor env (fuel + 1) t c)
            [ArgType.aLayer, ArgType.aMacro] [g, ("macro(200ms)".toList)] 1
            { op := Op.opToggle2 } config ("macro(200ms)".toList) [⟨.eTimeout, 200⟩]
            rfl rfl hmacs hm200).trans
          ((process_args_layer_ok env _ [ArgType.aLayer, ArgType.aMacro]
            [g, ("macro(200ms)".toList)] 0 _
            { config with macros := config.macros ++ [[⟨.eTimeout, 200⟩]] } g gi rfl rfl
            hgm hgi hgtype).trans (process_args_zero env _ _ _ _ _)))
      exact ⟨_, _, heq, rfl⟩
    · have hp := hpx (("layer".toList ++ ['(']) ++ (g ++ [')'])) (by simp [layer_arg_exprs])
      have heq := ((parse_descriptor_fn_eq env config _ (fuel + 1) ("layer".toList) [g] _ _ _
          (by simp) hp (parse_command_not_of env _ (isPrefixOf_cons_ne _ _ _ _ (by decide)))
          (macro_invalid_of env _
            (macro_wrapped_false_of _ (isPrefixOf_cons_ne _ _ _ _ (by decide))) hp
            (by simp [List.length_append]))
          (parse_fn_call1 _ _ (by decide) hg) hfind_layer).trans
        (if_neg (by simp))).trans
        ((process_args_layer_ok env
            (fun t c => parse_descriptor env (fuel + 1) t c)
            [ArgType.aLayer] [g] 0 { op := Op.opLayer } config g gi
            rfl rfl hgm hgi hgtype).trans (process_args_zero env _ _ _ _ _))
      exact ⟨_, _, heq, rfl⟩
    · have hp := hpx (("overload".toList ++ ['(']) ++ (g ++ (',' :: ("b)".toList)))) (by simp [layer_arg_exprs])
      have heq := ((parse_descriptor_fn_eq env config _ (fuel + 1) ("overload".toList) [g, ("b".toList)] _ _ _
          (by simp) hp (parse_command_not_of env _ (isPrefixOf_cons_ne _ _ _ _ (by decide)))
          (macro_invalid_of env _
            (macro_wrapped_false_of _ (isPrefixOf_cons_ne _ _ _ _ (by decide))) hp
            (by simp [List.length_append]))
          (parse_fn_call2b _ _ (by decide) hg) hfind_overload).trans
        (if_neg (by simp))).trans
        ((process_args_descriptor_ok env
            (fun t c => parse_descriptor env (fuel + 1) t c)
            [ArgType.aLayer, ArgType.aDescriptor] [g, ("b".toList)] 1
            { op := Op.opOverload } config ("b".toList)
            { op := Op.opKeyseq, arg0 := ((cb % 256 : Nat) : Int),
              arg1 := ((mb % 256 : Nat) : Int) } config rfl rfl hbdesc hdescs).trans
          ((process_args_layer_ok env _ [ArgType.aLayer, ArgType.aDescriptor]
            [g, ("b".toList)] 0 _
            { config with descriptors := config.descriptors ++
              [{ op := Op.opKeyseq, arg0 := ((cb % 256 : Nat) : Int),
                 arg1 := ((mb % 256 : Nat) : Int) }] } g gi rfl rfl
            hgm hgi hgtype).trans (process_args_zero env _ _ _ _ _)))
      exact ⟨_, _, heq, rfl⟩
  refine ⟨hgen_fatal _ hmaincl (fun e he => hpks e
      (List.mem_append_left _ (List.mem_append_left _ (List.mem_append_left _ he))))
      (Or.inl rfl),
    hgen_fatal _ hlc (fun e he => hpks e
      (List.mem_append_left _ (List.mem_append_right _ he)))
      (Or.inr ⟨hlm, Or.inr (by rw [hli]; simpa using hltype)⟩),
    hgen_fatal _ hbc (fun e he => hpks e (List.mem_append_right _ he))
      (Or.inr ⟨hbm, Or.inl hbi⟩),
    hgen_ok⟩

/-- Witness for C5 at the model environment on `cfg_seed`: `main`, the
layout layer `lay` and the unknown name `zzz` are all rejected as toggle
targets, while `foo` resolves to its index 2. -/
theorem c5_layer_argument_resolution_witness :
    parse_descriptor model_env 2
      (("swap".toList ++ ['(']) ++ (("main".toList) ++ [')'])) cfg_seed = none ∧
    parse_descriptor model_env 2
      (("toggle".toList ++ ['(']) ++ (("lay".toList) ++ [')'])) cfg_seed = none ∧
    parse_descriptor model_env 2
      (("overload".toList ++ ['(']) ++ (("zzz".toList) ++ (',' :: ("b)".toList))))
      cfg_seed = none ∧
    (∃ d config2, parse_descriptor model_env 2
        (("swap".toList ++ ['(']) ++ (("foo".toList) ++ [')'])) cfg_seed =
          some (d, config2) ∧ d.arg0 = ((2 : Nat) : Int)) := by
  have h := c5_layer_argument_resolution model_env cfg_seed 0 ("foo".toList) ("lay".toList)
    ("zzz".toList) 2 3 48 0 ⟨by decide, by decide⟩ ⟨by decide, by decide⟩
    ⟨by decide, by decide⟩ (by decide) (by decide) (by decide) (by decide) (by decide)
    (by decide) (by decide) (by decide) (by decide) (by decide) (by decide) (by decide)
    (by decide) (by decide) (by decide)
  exact ⟨h.1 _ (by decide), h.2.1 _ (by decide), h.2.2.1 _ (by decide),
    h.2.2.2 _ (by decide)⟩

end KeydConfig
